import Mathlib

/-!
Verification of the devjournal real-time chat hub
(`services/go-api/internal/handler/websocket/hub.go`,
`services/go-api/internal/handler/websocket/client.go`, and the
`ChatMessage` value type of `internal/domain/journal.go`) against its
natural-language specification.

The Go code is shallowly embedded as pure Lean functions over an explicit
`Hub` state:

* Go maps (`rooms map[string]map[*Client]bool`) become association lists
  with distinct keys; the member set of a room is a duplicate-free list of
  client identities.
* A `*Client` pointer becomes a numeric identity `cid`; the client's
  buffered channel `send chan *domain.ChatMessage` (capacity 256) becomes
  the list of messages currently buffered plus a `sendClosed` flag.
  `closeCount` counts how many times `close(client.send)` was executed on
  that channel (in Go a second `close` panics), and `Hub.panicked` records
  whether any channel operation that panics in Go (send on a closed
  channel, double close) was ever executed.
* `uuid.New()` and `time.Now()` are modelled by the `nextId` / `now`
  counters of the hub for hub-synthesized messages, and by explicit
  parameters for messages built inside `ReadPump`.

Every definition follows the corresponding Go function line by line.
-/

set_option maxHeartbeats 4000000
set_option maxRecDepth 100000

namespace DevJournal

/-- `domain.ChatMessage` (journal.go): one chat event. The Go field `Type`
is called `msgType` here because `Type` is not a usable field name in Lean. -/
structure ChatMessage where
  id : Nat
  room : String
  userID : String
  userDisplayName : String
  content : String
  msgType : String
  timestamp : Nat
deriving DecidableEq, Repr

/-- `domain.NewChatMessage(room, userID, displayName, content, msgType)`:
builds a message with a freshly generated id and the current time; the
generated id and clock reading are explicit parameters here. -/
def NewChatMessage (room userID displayName content msgType : String)
    (fresh now : Nat) : ChatMessage :=
  { id := fresh, room := room, userID := userID, userDisplayName := displayName,
    content := content, msgType := msgType, timestamp := now }

/-- `websocket.Client` (client.go): identity fields of one connection plus
the model of its outbound channel `send` (buffered, capacity 256). -/
structure Client where
  cid : Nat
  room : String
  userID : String
  userName : String
  send : List ChatMessage
  sendClosed : Bool
  closeCount : Nat
deriving DecidableEq, Repr

/-- `websocket.NewClient`: fresh client with an empty open mailbox
(`send: make(chan *domain.ChatMessage, 256)`). -/
def NewClient (cid : Nat) (room userID userName : String) : Client :=
  { cid := cid, room := room, userID := userID, userName := userName,
    send := [], sendClosed := false, closeCount := 0 }

/-- Capacity of the `send` channel created in `NewClient`. -/
def sendCapacity : Nat := 256

/-- `websocket.Hub`: the room table plus the pool of every client object in
existence. `nextId`/`now` model the id generator and clock; `panicked`
records whether an operation that panics in Go was executed. -/
structure Hub where
  rooms : List (String × List Nat)
  clients : List Client
  nextId : Nat
  now : Nat
  panicked : Bool
deriving DecidableEq, Repr

/-- `websocket.NewHub()`: empty room table. -/
def NewHub : Hub :=
  { rooms := [], clients := [], nextId := 0, now := 0, panicked := false }

/-- Go map read `h.rooms[r]` together with its `ok` bit. -/
def lookupRoom (h : Hub) (r : String) : Option (List Nat) :=
  (h.rooms.find? (fun p => p.1 == r)).map Prod.snd

/-- Member list of a room, `[]` when the room is absent from the table. -/
def membersOf (h : Hub) (r : String) : List Nat :=
  (lookupRoom h r).getD []

/-- Go map write `h.rooms[r] = mem` (update in place, or insert a new key). -/
def setRoom (h : Hub) (r : String) (mem : List Nat) : Hub :=
  if (h.rooms.find? (fun p => p.1 == r)).isSome then
    { h with rooms := h.rooms.map (fun p => if p.1 == r then (r, mem) else p) }
  else
    { h with rooms := h.rooms ++ [(r, mem)] }

/-- Go map delete `delete(h.rooms, r)`. -/
def deleteRoom (h : Hub) (r : String) : Hub :=
  { h with rooms := h.rooms.filter (fun p => p.1 != r) }

/-- Dereference a client identity in the pool of live client objects. -/
def findClient (h : Hub) (cid : Nat) : Option Client :=
  h.clients.find? (fun c => c.cid == cid)

/-- Mutate the client object with identity `cid` in place. -/
def updateClient (h : Hub) (cid : Nat) (f : Client → Client) : Hub :=
  { h with clients := h.clients.map (fun c => if c.cid == cid then f c else c) }

/-- A `NewClient` call brings a new client object into existence. -/
def addClient (h : Hub) (c : Client) : Hub :=
  { h with clients := h.clients ++ [c] }

/-- Effect of `client.send <- message` on the client object: the message
is appended to the channel buffer. -/
def enqueueMsg (message : ChatMessage) (c : Client) : Client :=
  { c with send := c.send ++ [message] }

/-- Effect of `close(client.send)` on the client object. -/
def closeUpd (c : Client) : Client :=
  { c with sendClosed := true, closeCount := c.closeCount + 1 }

/-- `close(client.send)`. Closing an already-closed channel panics in Go;
the model records that as `panicked` and still counts the close. -/
def closeChan (h : Hub) (cid : Nat) : Hub :=
  let h1 := if (findClient h cid).any Client.sendClosed then
    { h with panicked := true } else h
  updateClient h1 cid closeUpd

/-- Whether a non-blocking send on `client.send` would hit the `default`
branch: the buffer holds `sendCapacity` messages. -/
def isFull (h : Hub) (cid : Nat) : Bool :=
  match findClient h cid with
  | some c => decide (sendCapacity ≤ c.send.length)
  | none => false

/-- Body of the `for client := range clients` loop in `broadcastToRoom`
(hub.go lines 115-123): non-blocking send; on a full buffer, close the
channel and delete the client from the room's member map. A send on a
closed channel panics in Go; the model records that as `panicked`. -/
def sendStep (r : String) (message : ChatMessage) (h : Hub) (cid : Nat) : Hub :=
  match findClient h cid with
  | none => h
  | some c =>
    if c.sendClosed then { h with panicked := true }
    else if c.send.length < sendCapacity then
      updateClient h cid (enqueueMsg message)
    else
      let h1 := closeChan h cid
      setRoom h1 r ((membersOf h1 r).filter (fun x => x != cid))

/-- `Hub.broadcastToRoom` (hub.go 113-125). -/
def broadcastToRoom (h : Hub) (r : String) (message : ChatMessage) : Hub :=
  match lookupRoom h r with
  | none => h
  | some mem => mem.foldl (sendStep r message) h

/-- Loop body of `broadcastToRoomExcept`: skip the excluded client,
otherwise behave exactly like the `broadcastToRoom` loop body. -/
def sendStepExcept (r : String) (message : ChatMessage) (excl : Nat)
    (h : Hub) (cid : Nat) : Hub :=
  if cid == excl then h else sendStep r message h cid

/-- `Hub.broadcastToRoomExcept` (hub.go 128-142). -/
def broadcastToRoomExcept (h : Hub) (r : String) (message : ChatMessage)
    (excl : Nat) : Hub :=
  match lookupRoom h r with
  | none => h
  | some mem => mem.foldl (sendStepExcept r message excl) h

/-- `Hub.registerClient` (hub.go 54-74): add the client to its room
(creating the room if absent), then broadcast a join message — built by
`domain.NewChatMessage` with content `"has joined the room"` and type
`"join"` — to the room, including the client itself. -/
def registerClient (h : Hub) (cid : Nat) : Hub :=
  match findClient h cid with
  | none => h
  | some c =>
    let mem := membersOf h c.room
    let h1 := setRoom h c.room (if mem.contains cid then mem else mem ++ [cid])
    let joinMessage :=
      NewChatMessage c.room c.userID c.userName "has joined the room" "join"
        h1.nextId h1.now
    let h2 := { h1 with nextId := h1.nextId + 1 }
    broadcastToRoom h2 c.room joinMessage

/-- `Hub.unregisterClient` (hub.go 77-102): if the client is present in its
room, broadcast a leave message (content `"has left the room"`, type
`"leave"`) to the room excluding the client, remove the client, close its
channel, and delete the room entry if it became empty. -/
def unregisterClient (h : Hub) (cid : Nat) : Hub :=
  match findClient h cid with
  | none => h
  | some c =>
    match lookupRoom h c.room with
    | none => h
    | some mem =>
      if mem.contains cid then
        let leaveMessage :=
          NewChatMessage c.room c.userID c.userName "has left the room" "leave"
            h.nextId h.now
        let h1 := { h with nextId := h.nextId + 1 }
        let h2 := broadcastToRoomExcept h1 c.room leaveMessage cid
        let h3 := setRoom h2 c.room
          ((membersOf h2 c.room).filter (fun x => x != cid))
        let h4 := closeChan h3 cid
        if (membersOf h4 c.room).isEmpty then deleteRoom h4 c.room else h4
      else h

/-- `Hub.broadcastMessage` (hub.go 104-110). -/
def broadcastMessage (h : Hub) (message : ChatMessage) : Hub :=
  broadcastToRoom h message.room message

/-- `Hub.GetRoomClients` (hub.go 145-153). -/
def GetRoomClients (h : Hub) (r : String) : Nat :=
  match lookupRoom h r with
  | some clients => clients.length
  | none => 0

/-- `Hub.GetRooms` (hub.go 156-165). -/
def GetRooms (h : Hub) : List String :=
  h.rooms.map Prod.fst

/-- The hub states reachable through the requests the `Run` loop serves,
one at a time: a register of a freshly constructed client, an unregister
of any existing client (`ReadPump`'s deferred `c.hub.unregister <- c`),
and a broadcast submitted by some existing client's `ReadPump` — always a
message of type `"message"` carrying that client's room and identity and
an arbitrary content, with an arbitrary generated id and timestamp. -/
inductive Reachable : Hub → Prop
  | init : Reachable NewHub
  | register (h : Hub) (cid : Nat) (room uid uname : String) :
      Reachable h → findClient h cid = none →
      Reachable (registerClient (addClient h (NewClient cid room uid uname)) cid)
  | unregister (h : Hub) (cid : Nat) :
      Reachable h → Reachable (unregisterClient h cid)
  | broadcast (h : Hub) (cid mid t : Nat) (content : String) (c : Client) :
      Reachable h → findClient h cid = some c →
      Reachable (broadcastMessage h
        (NewChatMessage c.room c.userID c.userName content "message" mid t))

/-! ## The reader unit (client.go `ReadPump`) -/

/-- JSON values, as far as `encoding/json` decoding of an inbound frame
needs to distinguish them. -/
inductive JsonValue where
  | null
  | jbool (b : Bool)
  | jnum (n : Int)
  | jstr (s : String)
  | jarr (elems : List JsonValue)
  | jobj (fields : List (String × JsonValue))

/-- The anonymous struct `ReadPump` unmarshals a frame into:
`Content string` (tag `content`) and `Type string` (tag `type`). -/
structure IncomingMessage where
  content : String
  msgType : String
deriving DecidableEq, Repr

/-- `encoding/json` object decoding into `IncomingMessage`: fields are
processed in order, later duplicates overwrite earlier ones, unknown keys
are ignored, a JSON `null` leaves the field untouched, and a value of the
wrong JSON type makes the whole unmarshal fail. -/
def decodeFields : List (String × JsonValue) → IncomingMessage →
    Option IncomingMessage
  | [], acc => some acc
  | (k, v) :: rest, acc =>
    if k == "content" then
      match v with
      | JsonValue.jstr s => decodeFields rest { acc with content := s }
      | JsonValue.null => decodeFields rest acc
      | _ => none
    else if k == "type" then
      match v with
      | JsonValue.jstr s => decodeFields rest { acc with msgType := s }
      | JsonValue.null => decodeFields rest acc
      | _ => none
    else decodeFields rest acc

/-- `json.Unmarshal(messageBytes, &incomingMessage)` on an already
syntactically valid JSON document: `null` succeeds leaving the zero value,
an object is decoded field by field, anything else fails. -/
def unmarshalIncoming : JsonValue → Option IncomingMessage
  | JsonValue.null => some { content := "", msgType := "" }
  | JsonValue.jobj fields => decodeFields fields { content := "", msgType := "" }
  | _ => none

/-- What one iteration of the `ReadPump` loop does with a complete frame:
either the frame is discarded (`continue`) or a message is submitted to
`hub.broadcast`; in both cases the loop keeps running. -/
inductive FrameOutcome where
  | discarded
  | broadcasted (message : ChatMessage)
deriving DecidableEq, Repr

/-- Body of the `ReadPump` loop (client.go 80-100) after a successful
socket read: on unmarshal failure log and `continue`; otherwise build a
`ChatMessage` of type `"message"` from the client's identity and the
decoded content, and submit it to the hub's broadcast channel. -/
def processFrame (room userID userName : String) (frame : JsonValue)
    (mid t : Nat) : FrameOutcome :=
  match unmarshalIncoming frame with
  | none => FrameOutcome.discarded
  | some incoming =>
      FrameOutcome.broadcasted
        (NewChatMessage room userID userName incoming.content "message" mid t)

/-! ## Basic facts about the state helpers -/

/-- A client found by identity carries that identity. -/
theorem findClient_cid {h : Hub} {cid : Nat} {c : Client}
    (hf : findClient h cid = some c) : c.cid = cid := by
  have := List.find?_some hf
  simpa using this

/-- A room entry found by key carries that key. -/
theorem lookupRoom_key {h : Hub} {r : String} {p : String × List Nat}
    (hf : h.rooms.find? (fun q => q.1 == r) = some p) : p.1 = r := by
  have := List.find?_some hf
  simpa using this

theorem hub_ext {h1 h2 : Hub} (hr : h1.rooms = h2.rooms)
    (hc : h1.clients = h2.clients) (hn : h1.nextId = h2.nextId)
    (hw : h1.now = h2.now) (hp : h1.panicked = h2.panicked) : h1 = h2 := by
  cases h1; cases h2; simp_all

@[simp] theorem rooms_updateClient (h : Hub) (cid : Nat) (f : Client → Client) :
    (updateClient h cid f).rooms = h.rooms := rfl

@[simp] theorem nextId_updateClient (h : Hub) (cid : Nat) (f : Client → Client) :
    (updateClient h cid f).nextId = h.nextId := rfl

@[simp] theorem now_updateClient (h : Hub) (cid : Nat) (f : Client → Client) :
    (updateClient h cid f).now = h.now := rfl

@[simp] theorem panicked_updateClient (h : Hub) (cid : Nat) (f : Client → Client) :
    (updateClient h cid f).panicked = h.panicked := rfl

@[simp] theorem clients_setRoom (h : Hub) (r : String) (mem : List Nat) :
    (setRoom h r mem).clients = h.clients := by
  unfold setRoom; split <;> rfl

@[simp] theorem nextId_setRoom (h : Hub) (r : String) (mem : List Nat) :
    (setRoom h r mem).nextId = h.nextId := by
  unfold setRoom; split <;> rfl

@[simp] theorem now_setRoom (h : Hub) (r : String) (mem : List Nat) :
    (setRoom h r mem).now = h.now := by
  unfold setRoom; split <;> rfl

@[simp] theorem panicked_setRoom (h : Hub) (r : String) (mem : List Nat) :
    (setRoom h r mem).panicked = h.panicked := by
  unfold setRoom; split <;> rfl

@[simp] theorem lookupRoom_updateClient (h : Hub) (cid : Nat)
    (f : Client → Client) (r : String) :
    lookupRoom (updateClient h cid f) r = lookupRoom h r := rfl

@[simp] theorem findClient_setRoom (h : Hub) (r : String) (mem : List Nat)
    (cid : Nat) : findClient (setRoom h r mem) cid = findClient h cid := by
  unfold setRoom findClient; split <;> rfl

/-- Effect of `updateClient` on `findClient`, for any identity-preserving
update function. -/
theorem findClient_updateClient (h : Hub) (x : Nat) (f : Client → Client)
    (hf : ∀ c, (f c).cid = c.cid) (y : Nat) :
    findClient (updateClient h x f) y =
      (findClient h y).map (fun c => if c.cid == x then f c else c) := by
  unfold findClient updateClient
  rw [show ({ h with clients := h.clients.map fun c => if c.cid == x then f c else c } : Hub).clients
      = h.clients.map (fun c => if c.cid == x then f c else c) from rfl]
  rw [List.find?_map]
  have hpred : ((fun c : Client => c.cid == y) ∘ fun c => if c.cid == x then f c else c)
      = fun c : Client => c.cid == y := by
    funext c
    simp only [Function.comp_apply]
    by_cases hcx : c.cid == x <;> simp [hcx, hf]
  rw [hpred]

theorem findClient_updateClient_other (h : Hub) (x : Nat) (f : Client → Client)
    (hf : ∀ c, (f c).cid = c.cid) (y : Nat) (hxy : y ≠ x) :
    findClient (updateClient h x f) y = findClient h y := by
  rw [findClient_updateClient h x f hf y]
  cases hc : findClient h y with
  | none => rfl
  | some c =>
    have : c.cid = y := findClient_cid hc
    simp [this, hxy]

@[simp] theorem lookupRoom_addClient (h : Hub) (c : Client) (r : String) :
    lookupRoom (addClient h c) r = lookupRoom h r := rfl

@[simp] theorem membersOf_addClient (h : Hub) (c : Client) (r : String) :
    membersOf (addClient h c) r = membersOf h r := rfl

theorem findClient_addClient (h : Hub) (c : Client) (y : Nat) :
    findClient (addClient h c) y =
      ((findClient h y).or (if c.cid == y then some c else none)) := by
  unfold findClient addClient
  rw [show ({ h with clients := h.clients ++ [c] } : Hub).clients = h.clients ++ [c] from rfl]
  rw [List.find?_append]
  congr 1
  simp [List.find?_cons]
  split <;> simp_all

theorem findClient_addClient_old (h : Hub) (c : Client) (y : Nat) {d : Client}
    (hd : findClient h y = some d) : findClient (addClient h c) y = some d := by
  rw [findClient_addClient, hd]; rfl

theorem findClient_addClient_new (h : Hub) (c : Client)
    (hnew : findClient h c.cid = none) :
    findClient (addClient h c) c.cid = some c := by
  rw [findClient_addClient, hnew]; simp

/-- Reading back the room just written by `setRoom`. -/
theorem lookupRoom_setRoom_self (h : Hub) (r : String) (mem : List Nat) :
    lookupRoom (setRoom h r mem) r = some mem := by
  unfold lookupRoom setRoom
  split
  · next hpres =>
    rw [show ({ h with rooms := h.rooms.map fun p => if p.1 == r then (r, mem) else p } : Hub).rooms
        = h.rooms.map (fun p => if p.1 == r then (r, mem) else p) from rfl]
    rw [List.find?_map]
    obtain ⟨p, hp⟩ := Option.isSome_iff_exists.mp hpres
    have hkey : p.1 = r := lookupRoom_key hp
    have : (List.find? ((fun q => q.1 == r) ∘ fun p => if p.1 == r then (r, mem) else p) h.rooms)
        = List.find? (fun q => q.1 == r) h.rooms := by
      congr 1
      funext q
      simp only [Function.comp_apply]
      by_cases hq : q.1 == r
      · simp [hq]
      · simp [hq]
    rw [this, hp]
    simp [hkey]
  · next habs =>
    rw [show ({ h with rooms := h.rooms ++ [(r, mem)] } : Hub).rooms
        = h.rooms ++ [(r, mem)] from rfl]
    rw [List.find?_append]
    have hnone : List.find? (fun q => q.1 == r) h.rooms = none := by
      cases hf : List.find? (fun q => q.1 == r) h.rooms with
      | none => rfl
      | some p => rw [hf] at habs; simp at habs
    rw [hnone]
    simp [List.find?_cons]

theorem lookupRoom_setRoom_other (h : Hub) (r : String) (mem : List Nat)
    (r' : String) (hne : r' ≠ r) :
    lookupRoom (setRoom h r mem) r' = lookupRoom h r' := by
  unfold lookupRoom setRoom
  split
  · rw [show ({ h with rooms := h.rooms.map fun p => if p.1 == r then (r, mem) else p } : Hub).rooms
        = h.rooms.map (fun p => if p.1 == r then (r, mem) else p) from rfl]
    rw [List.find?_map]
    have hpred : (List.find? ((fun q => q.1 == r') ∘ fun p => if p.1 == r then (r, mem) else p) h.rooms)
        = List.find? (fun q => q.1 == r') h.rooms := by
      congr 1
      funext q
      simp only [Function.comp_apply]
      by_cases hq : q.1 == r
      · have : q.1 = r := by simpa using hq
        simp [hq, this, (by simpa using Ne.symm hne : ¬ (r = r'))]
      · simp [hq]
    rw [hpred]
    cases hf : List.find? (fun q => q.1 == r') h.rooms with
    | none => rfl
    | some p =>
      have hkey : p.1 = r' := lookupRoom_key hf
      have hpr : (p.1 == r) = false := by
        rw [hkey]; exact beq_eq_false_iff_ne.mpr hne
      simp [hpr, hkey, hne]
  · rw [show ({ h with rooms := h.rooms ++ [(r, mem)] } : Hub).rooms
        = h.rooms ++ [(r, mem)] from rfl]
    rw [List.find?_append]
    have hrr : (r == r') = false := beq_eq_false_iff_ne.mpr (Ne.symm hne)
    have : List.find? (fun q => q.1 == r') [(r, mem)] = none := by
      simp [List.find?_cons, hrr]
    rw [this]
    cases List.find? (fun q => q.1 == r') h.rooms <;> rfl

/-! ## The fan-out loop, characterized -/

/-- The client's channel exists and is open. -/
def clientOpen (h : Hub) (cid : Nat) : Bool :=
  (findClient h cid).any (fun c => !c.sendClosed)

theorem clientOpen_iff {h : Hub} {cid : Nat} :
    clientOpen h cid = true ↔
      ∃ c, findClient h cid = some c ∧ c.sendClosed = false := by
  unfold clientOpen
  cases hc : findClient h cid <;> simp [Option.any]

/-- What the fan-out loop does to one client: enqueue the message, or — on
a full mailbox — close the channel (the client is simultaneously dropped
from the room's member list). -/
def deliverOrEvict (message : ChatMessage) (full : Bool) (c : Client) : Client :=
  if full then closeUpd c else enqueueMsg message c

@[simp] theorem deliverOrEvict_cid (message : ChatMessage) (full : Bool)
    (c : Client) : (deliverOrEvict message full c).cid = c.cid := by
  unfold deliverOrEvict; split <;> rfl

/-- Closed form of one entire fan-out pass of `broadcastToRoom` over the
member list `mem` of room `r`: every targeted client with a full mailbox
is closed, every other targeted client gets the message appended, and the
room's member list loses exactly the full targeted clients. -/
def broadcastResult (h : Hub) (r : String) (message : ChatMessage)
    (mem : List Nat) : Hub :=
  { h with
    clients := h.clients.map (fun c =>
      if mem.contains c.cid then deliverOrEvict message (isFull h c.cid) c else c),
    rooms := h.rooms.map (fun p =>
      if p.1 == r then (p.1, p.2.filter (fun x => !(mem.contains x && isFull h x)))
      else p) }

theorem isFull_congr {h1 h2 : Hub} {y : Nat}
    (hy : findClient h1 y = findClient h2 y) : isFull h1 y = isFull h2 y := by
  unfold isFull; rw [hy]

theorem isFull_updateClient_other (h : Hub) (x : Nat) (f : Client → Client)
    (hf : ∀ c, (f c).cid = c.cid) (y : Nat) (hxy : y ≠ x) :
    isFull (updateClient h x f) y = isFull h y :=
  isFull_congr (findClient_updateClient_other h x f hf y hxy)

theorem clientOpen_congr {h1 h2 : Hub} {y : Nat}
    (hy : findClient h1 y = findClient h2 y) :
    clientOpen h1 y = clientOpen h2 y := by
  unfold clientOpen; rw [hy]

theorem keys_setRoom_present (h : Hub) (r : String) (mem : List Nat)
    (hpres : (h.rooms.find? (fun p => p.1 == r)).isSome) :
    (setRoom h r mem).rooms.map Prod.fst = h.rooms.map Prod.fst := by
  unfold setRoom
  rw [if_pos hpres]
  rw [show ({ h with rooms := h.rooms.map fun p => if p.1 == r then (r, mem) else p } : Hub).rooms
      = h.rooms.map (fun p => if p.1 == r then (r, mem) else p) from rfl]
  rw [List.map_map]
  apply List.map_congr_left
  intro p _
  simp only [Function.comp_apply]
  by_cases hp : p.1 == r
  · have : p.1 = r := by simpa using hp
    simp [hp, this]
  · simp [hp]

theorem lookupRoom_isSome (h : Hub) (r : String) :
    (lookupRoom h r).isSome = (h.rooms.find? (fun p => p.1 == r)).isSome := by
  unfold lookupRoom
  cases h.rooms.find? (fun p => p.1 == r) <;> rfl

theorem find?_key_of_mem : ∀ {l : List (String × List Nat)},
    (l.map Prod.fst).Nodup → ∀ {p : String × List Nat}, p ∈ l →
      l.find? (fun q => q.1 == p.1) = some p
  | [], _, _, hp => absurd hp (List.not_mem_nil _)
  | q :: rest, hkeys, p, hp => by
    rcases List.mem_cons.mp hp with hpq | hp
    · subst hpq
      simp [List.find?_cons]
    · have hkeys' : (rest.map Prod.fst).Nodup := by
        rw [List.map_cons, List.nodup_cons] at hkeys
        exact hkeys.2
      have hq1 : q.1 ∉ rest.map Prod.fst := by
        rw [List.map_cons, List.nodup_cons] at hkeys
        exact hkeys.1
      have hqp : (q.1 == p.1) = false := by
        apply beq_eq_false_iff_ne.mpr
        intro hcontra
        exact hq1 (hcontra ▸ List.mem_map.mpr ⟨p, hp, rfl⟩)
      rw [List.find?_cons, hqp]
      exact find?_key_of_mem hkeys' hp

/-- With duplicate-free room keys, membership of an entry determines the
lookup result. -/
theorem lookupRoom_of_mem {h : Hub} (hkeys : (h.rooms.map Prod.fst).Nodup)
    {p : String × List Nat} (hp : p ∈ h.rooms) : lookupRoom h p.1 = some p.2 := by
  unfold lookupRoom
  rw [find?_key_of_mem hkeys hp]
  rfl

@[simp] theorem broadcastResult_nil (h : Hub) (r : String)
    (message : ChatMessage) : broadcastResult h r message [] = h := by
  unfold broadcastResult
  apply hub_ext <;> try rfl
  · show h.rooms.map _ = h.rooms
    have : ∀ p ∈ h.rooms,
        (if p.1 == r then
          (p.1, p.2.filter (fun x => !(([] : List Nat).contains x && isFull h x)))
         else p) = p := by
      intro p _
      by_cases hp : p.1 == r
      · simp [hp, List.filter_true]
      · simp [hp]
    rw [List.map_congr_left this]
    exact List.map_id _
  · show h.clients.map _ = h.clients
    have : ∀ c ∈ h.clients,
        (if ([] : List Nat).contains c.cid then
          deliverOrEvict message (isFull h c.cid) c else c) = c := by
      intro c _
      simp [List.contains]
    rw [List.map_congr_left this]
    exact List.map_id _

theorem contains_false_of_not_mem {l : List Nat} {a : Nat} (h : a ∉ l) :
    l.contains a = false := by simpa using h

theorem rooms_setRoom_present (h : Hub) (r : String) (mem : List Nat)
    (hpres : (h.rooms.find? (fun p => p.1 == r)).isSome) :
    (setRoom h r mem).rooms = h.rooms.map (fun p => if p.1 == r then (r, mem) else p) := by
  unfold setRoom
  rw [if_pos hpres]

/-- `close` on a channel that is still open: no panic, just the flag and
the close counter. -/
theorem closeChan_open {h : Hub} {cid : Nat} {c : Client}
    (hc : findClient h cid = some c) (hcopen : c.sendClosed = false) :
    closeChan h cid = updateClient h cid closeUpd := by
  unfold closeChan
  rw [hc]
  simp [Option.any, hcopen]

@[simp] theorem enqueueMsg_cid (message : ChatMessage) (c : Client) :
    (enqueueMsg message c).cid = c.cid := rfl

@[simp] theorem closeUpd_cid (c : Client) : (closeUpd c).cid = c.cid := rfl

@[simp] theorem broadcastResult_rooms (h : Hub) (r : String)
    (message : ChatMessage) (mem : List Nat) :
    (broadcastResult h r message mem).rooms = h.rooms.map (fun p =>
      if p.1 == r then (p.1, p.2.filter (fun x => !(mem.contains x && isFull h x)))
      else p) := rfl

@[simp] theorem broadcastResult_clients (h : Hub) (r : String)
    (message : ChatMessage) (mem : List Nat) :
    (broadcastResult h r message mem).clients = h.clients.map (fun c =>
      if mem.contains c.cid then deliverOrEvict message (isFull h c.cid) c else c) := rfl

@[simp] theorem broadcastResult_nextId (h : Hub) (r : String)
    (message : ChatMessage) (mem : List Nat) :
    (broadcastResult h r message mem).nextId = h.nextId := rfl

@[simp] theorem broadcastResult_now (h : Hub) (r : String)
    (message : ChatMessage) (mem : List Nat) :
    (broadcastResult h r message mem).now = h.now := rfl

@[simp] theorem broadcastResult_panicked (h : Hub) (r : String)
    (message : ChatMessage) (mem : List Nat) :
    (broadcastResult h r message mem).panicked = h.panicked := rfl

theorem updateClient_clients (h : Hub) (cid : Nat) (f : Client → Client) :
    (updateClient h cid f).clients
      = h.clients.map (fun c => if c.cid == cid then f c else c) := rfl

/-- One full pass of the `broadcastToRoom` loop over the duplicate-free
target list `mem`, all of whose clients have open channels, is exactly
`broadcastResult`. -/
theorem foldl_sendStep_eq (r : String) (message : ChatMessage) :
    ∀ (mem : List Nat) (h : Hub),
      mem.Nodup →
      (∀ cid ∈ mem, clientOpen h cid = true) →
      (h.rooms.map Prod.fst).Nodup →
      (lookupRoom h r).isSome = true →
      mem.foldl (sendStep r message) h = broadcastResult h r message mem
  | [], h, _, _, _, _ => by simp
  | cid :: rest, h, hnd, hopen, hkeys, hsome => by
    obtain ⟨c, hc, hcopen⟩ := clientOpen_iff.mp (hopen cid (List.mem_cons_self cid rest))
    have hcidrest : cid ∉ rest := (List.nodup_cons.mp hnd).1
    have hndrest : rest.Nodup := (List.nodup_cons.mp hnd).2
    have hrest : rest.contains cid = false := contains_false_of_not_mem hcidrest
    rw [List.foldl_cons]
    by_cases hfull : c.send.length < sendCapacity
    · -- room for the message: the non-blocking send succeeds
      have hisfull : isFull h cid = false := by
        unfold isFull
        rw [hc]
        simp only [decide_eq_false_iff_not]
        omega
      have hstep : sendStep r message h cid = updateClient h cid (enqueueMsg message) := by
        unfold sendStep
        rw [hc]
        simp [hcopen, hfull]
      rw [hstep]
      have hopen1 : ∀ y ∈ rest, clientOpen (updateClient h cid (enqueueMsg message)) y = true := by
        intro y hy
        have hyne : y ≠ cid := fun hcontra => hcidrest (hcontra ▸ hy)
        rw [clientOpen_congr (findClient_updateClient_other h cid (enqueueMsg message) (fun _ => rfl) y hyne)]
        exact hopen y (List.mem_cons_of_mem _ hy)
      rw [foldl_sendStep_eq r message rest _ hndrest hopen1 (by simpa using hkeys)
        (by simpa using hsome)]
      apply hub_ext
      · rw [broadcastResult_rooms, broadcastResult_rooms, rooms_updateClient]
        apply List.map_congr_left
        intro p _
        by_cases hp : (p.1 == r) = true
        · simp only [hp, if_true]
          apply congrArg (Prod.mk p.1)
          apply List.filter_congr
          intro x _
          by_cases hx : x = cid
          · simp [hx, hcidrest, hrest, hisfull]
          · rw [isFull_updateClient_other h cid (enqueueMsg message) (fun _ => rfl) x hx, List.contains_cons]
            have hxb : (x == cid) = false := by simpa using hx
            rw [hxb]
            simp
        · simp only [hp]
          rfl
      · rw [broadcastResult_clients, broadcastResult_clients,
          updateClient_clients, List.map_map]
        apply List.map_congr_left
        intro d _
        simp only [Function.comp_apply]
        by_cases hd : d.cid = cid
        · have hdb : (d.cid == cid) = true := by simp [hd]
          simp only [hdb, if_true]
          rw [if_neg (by simp [hd, hcidrest]), if_pos (by simp [hd, List.contains_cons]),
            deliverOrEvict, hd, hisfull]
          simp
        · have hdb : (d.cid == cid) = false := by simp [hd]
          simp only [hdb, Bool.false_eq_true, if_false]
          rw [isFull_updateClient_other h cid (enqueueMsg message) (fun _ => rfl) d.cid hd, List.contains_cons]
          simp [hdb]
      · simp
      · simp
      · simp
    · -- buffer full: close the channel and drop the client from the room
      have hisfull : isFull h cid = true := by
        unfold isFull
        rw [hc]
        simp only [decide_eq_true_eq]
        omega
      obtain ⟨cur, hcur⟩ := Option.isSome_iff_exists.mp hsome
      have hstep : sendStep r message h cid
          = setRoom (updateClient h cid closeUpd) r (cur.filter (fun x => x != cid)) := by
        unfold sendStep
        rw [hc]
        simp only [hcopen, Bool.false_eq_true, if_false, hfull]
        rw [closeChan_open hc hcopen]
        have hmem : membersOf (updateClient h cid closeUpd) r = cur := by
          unfold membersOf
          rw [lookupRoom_updateClient, hcur]
          rfl
        rw [hmem]
      rw [hstep]
      have hpres : ((updateClient h cid closeUpd).rooms.find? (fun p => p.1 == r)).isSome := by
        rw [rooms_updateClient, ← lookupRoom_isSome]
        exact hsome
      have hopen2 : ∀ y ∈ rest, clientOpen
          (setRoom (updateClient h cid closeUpd) r (cur.filter (fun x => x != cid))) y = true := by
        intro y hy
        have hyne : y ≠ cid := fun hcontra => hcidrest (hcontra ▸ hy)
        rw [clientOpen_congr (findClient_setRoom _ _ _ _),
          clientOpen_congr (findClient_updateClient_other h cid closeUpd (fun _ => rfl) y hyne)]
        exact hopen y (List.mem_cons_of_mem _ hy)
      have hkeys2 : (((setRoom (updateClient h cid closeUpd) r
          (cur.filter (fun x => x != cid))).rooms.map Prod.fst)).Nodup := by
        rw [keys_setRoom_present _ _ _ hpres, rooms_updateClient]
        exact hkeys
      have hsome2 : (lookupRoom (setRoom (updateClient h cid closeUpd) r
          (cur.filter (fun x => x != cid))) r).isSome = true := by
        rw [lookupRoom_setRoom_self]
        rfl
      have hfc_other : ∀ x : Nat, x ≠ cid → isFull (setRoom (updateClient h cid closeUpd) r
          (cur.filter (fun y => y != cid))) x = isFull h x := by
        intro x hx
        apply isFull_congr
        rw [findClient_setRoom]
        exact findClient_updateClient_other h cid closeUpd (fun _ => rfl) x hx
      rw [foldl_sendStep_eq r message rest _ hndrest hopen2 hkeys2 hsome2]
      apply hub_ext
      · rw [broadcastResult_rooms, broadcastResult_rooms,
          rooms_setRoom_present _ _ _ hpres, rooms_updateClient, List.map_map]
        apply List.map_congr_left
        intro p hpmem
        simp only [Function.comp_apply]
        by_cases hp : (p.1 == r) = true
        · have hp1 : p.1 = r := by simpa using hp
          have hp2 : p.2 = cur := by
            have hlp := lookupRoom_of_mem hkeys hpmem
            rw [hp1, hcur] at hlp
            exact (Option.some_inj.mp hlp).symm
          simp only [hp, if_true]
          rw [if_pos (by simp)]
          refine Prod.ext hp1.symm ?_
          show (cur.filter (fun x => x != cid)).filter _ = p.2.filter _
          rw [List.filter_filter, hp2]
          apply List.filter_congr
          intro x _
          by_cases hx : x = cid
          · simp [hx, hcidrest, hrest, hisfull]
          · rw [hfc_other x hx, List.contains_cons]
            have hxb : (x == cid) = false := by simp [hx]
            have hxbne : (x != cid) = true := by simp [hx]
            rw [hxb, hxbne]
            simp
        · simp [hp]
      · rw [broadcastResult_clients, broadcastResult_clients, clients_setRoom,
          updateClient_clients, List.map_map]
        apply List.map_congr_left
        intro d _
        simp only [Function.comp_apply]
        by_cases hd : d.cid = cid
        · have hdb : (d.cid == cid) = true := by simp [hd]
          simp only [hdb, if_true]
          rw [if_neg (by simp [hd, hcidrest]), if_pos (by simp [hd, List.contains_cons]),
            deliverOrEvict, hd, hisfull]
          simp
        · have hdb : (d.cid == cid) = false := by simp [hd]
          simp only [hdb, Bool.false_eq_true, if_false]
          rw [hfc_other d.cid hd, List.contains_cons]
          simp [hdb]
      · simp
      · simp
      · simp

/-- `broadcastToRoom`, characterized on a present room whose members are
duplicate-free and open. -/
theorem broadcastToRoom_eq {h : Hub} {r : String} {mem : List Nat}
    (message : ChatMessage) (hcur : lookupRoom h r = some mem)
    (hnd : mem.Nodup) (hopen : ∀ cid ∈ mem, clientOpen h cid = true)
    (hkeys : (h.rooms.map Prod.fst).Nodup) :
    broadcastToRoom h r message = broadcastResult h r message mem := by
  unfold broadcastToRoom
  rw [hcur]
  exact foldl_sendStep_eq r message mem h hnd hopen hkeys (by rw [hcur]; rfl)

/-- Skipping the excluded client is the same as iterating over the member
list with the excluded client filtered out. -/
theorem foldl_sendStepExcept (r : String) (message : ChatMessage) (excl : Nat) :
    ∀ (mem : List Nat) (h : Hub),
      mem.foldl (sendStepExcept r message excl) h
        = (mem.filter (fun x => x != excl)).foldl (sendStep r message) h
  | [], _ => rfl
  | cid :: rest, h => by
    rw [List.foldl_cons]
    by_cases hx : cid = excl
    · have hxb : (cid == excl) = true := by simp [hx]
      have hxf : (cid != excl) = false := by simp [hx]
      rw [List.filter_cons_of_neg (by simp [hxf])]
      unfold sendStepExcept
      rw [if_pos hxb]
      exact foldl_sendStepExcept r message excl rest h
    · have hxb : (cid == excl) = false := by simp [hx]
      rw [List.filter_cons_of_pos (by simp [hx])]
      rw [List.foldl_cons]
      unfold sendStepExcept
      rw [if_neg (by simp [hx])]
      exact foldl_sendStepExcept r message excl rest (sendStep r message h cid)

/-- `broadcastToRoomExcept`, characterized. -/
theorem broadcastToRoomExcept_eq {h : Hub} {r : String} {mem : List Nat}
    (message : ChatMessage) (excl : Nat) (hcur : lookupRoom h r = some mem)
    (hnd : mem.Nodup) (hopen : ∀ cid ∈ mem, clientOpen h cid = true)
    (hkeys : (h.rooms.map Prod.fst).Nodup) :
    broadcastToRoomExcept h r message excl
      = broadcastResult h r message (mem.filter (fun x => x != excl)) := by
  unfold broadcastToRoomExcept
  rw [hcur]
  show mem.foldl (sendStepExcept r message excl) h = _
  rw [foldl_sendStepExcept]
  exact foldl_sendStep_eq r message _ h (hnd.filter _)
    (fun cid hcid => hopen cid (List.mem_of_mem_filter hcid)) hkeys (by rw [hcur]; rfl)

/-- Reading a client back out of a `broadcastResult`. -/
theorem findClient_broadcastResult (h : Hub) (r : String)
    (message : ChatMessage) (mem : List Nat) (y : Nat) :
    findClient (broadcastResult h r message mem) y = (findClient h y).map
      (fun c => if mem.contains c.cid then deliverOrEvict message (isFull h c.cid) c else c) := by
  unfold findClient
  rw [broadcastResult_clients]
  show List.find? _ (h.clients.map _) = _
  rw [List.find?_map]
  have hpred : ((fun c : Client => c.cid == y) ∘ fun c =>
      if mem.contains c.cid then deliverOrEvict message (isFull h c.cid) c else c)
      = fun c : Client => c.cid == y := by
    funext d
    simp only [Function.comp_apply]
    by_cases hd : d.cid ∈ mem <;> simp [hd]
  rw [hpred]

theorem lookupRoom_broadcastResult_self {h : Hub} {r : String} {cur : List Nat}
    (message : ChatMessage) (mem : List Nat)
    (hcur : lookupRoom h r = some cur) :
    lookupRoom (broadcastResult h r message mem) r
      = some (cur.filter (fun x => !(mem.contains x && isFull h x))) := by
  unfold lookupRoom at hcur ⊢
  rw [broadcastResult_rooms]
  rw [List.find?_map]
  have hpred : ((fun q : String × List Nat => q.1 == r) ∘ fun p =>
      if p.1 == r then (p.1, p.2.filter (fun x => !(mem.contains x && isFull h x))) else p)
      = fun q : String × List Nat => q.1 == r := by
    funext q
    simp only [Function.comp_apply]
    by_cases hq : (q.1 == r) = true <;> simp [hq]
  rw [hpred]
  obtain ⟨p, hp, hp2⟩ : ∃ p, h.rooms.find? (fun q => q.1 == r) = some p ∧ p.2 = cur := by
    cases hf : h.rooms.find? (fun q => q.1 == r) with
    | none => rw [hf] at hcur; cases hcur
    | some p =>
      rw [hf] at hcur
      exact ⟨p, rfl, Option.some_inj.mp hcur⟩
  rw [hp]
  have hkey : p.1 = r := lookupRoom_key hp
  simp [hkey, hp2]

theorem lookupRoom_broadcastResult_other (h : Hub) (r : String)
    (message : ChatMessage) (mem : List Nat) (s : String) (hne : s ≠ r) :
    lookupRoom (broadcastResult h r message mem) s = lookupRoom h s := by
  unfold lookupRoom
  rw [broadcastResult_rooms]
  rw [List.find?_map]
  have hpred : ((fun q : String × List Nat => q.1 == s) ∘ fun p =>
      if p.1 == r then (p.1, p.2.filter (fun x => !(mem.contains x && isFull h x))) else p)
      = fun q : String × List Nat => q.1 == s := by
    funext q
    simp only [Function.comp_apply]
    by_cases hq : (q.1 == r) = true <;> simp [hq]
  rw [hpred]
  cases hf : h.rooms.find? (fun q => q.1 == s) with
  | none => rfl
  | some p =>
    have hkey : p.1 = s := lookupRoom_key hf
    simp [hkey, hne]

/-! ## The hub invariant -/

/-- The member `cid` of room `r` is backed by a live client object whose
`room` field is `r` and whose channel is open. -/
def memberOk (h : Hub) (r : String) (cid : Nat) : Bool :=
  match findClient h cid with
  | some c => c.room == r && !c.sendClosed
  | none => false

/-- The channel of `c` was closed at most once, and exactly once iff the
closed flag is set. -/
def closeOk (c : Client) : Bool :=
  decide (c.closeCount ≤ 1) && (c.sendClosed == decide (c.closeCount = 1))

/-- Invariant of every reachable hub state: distinct room keys, distinct
client identities, duplicate-free member lists whose members are open
clients of that room, consistent close accounting, and no Go panic. -/
def Inv (h : Hub) : Prop :=
  (h.rooms.map Prod.fst).Nodup ∧
  (h.clients.map Client.cid).Nodup ∧
  (∀ p ∈ h.rooms, p.2.Nodup ∧ ∀ cid ∈ p.2, memberOk h p.1 cid = true) ∧
  (∀ c ∈ h.clients, closeOk c = true) ∧
  h.panicked = false

instance decidableInv (h : Hub) : Decidable (Inv h) := by
  unfold Inv
  infer_instance

theorem Inv_NewHub : Inv NewHub := by
  refine ⟨?_, ?_, ?_, ?_, rfl⟩ <;> simp [NewHub]

theorem bool_eq_false {b : Bool} (h : ¬ b = true) : b = false := by
  cases b
  · rfl
  · exact absurd rfl h

theorem memberOk_room {h : Hub} {r : String} {cid : Nat} {c : Client}
    (hm : memberOk h r cid = true) (hc : findClient h cid = some c) :
    c.room = r ∧ c.sendClosed = false := by
  unfold memberOk at hm
  rw [hc] at hm
  have hm1 : (c.room == r && !c.sendClosed) = true := hm
  have hm2 : (c.room == r) = true ∧ (!c.sendClosed) = true := by
    constructor
    · cases hx : (c.room == r)
      · rw [hx] at hm1; simp at hm1
      · rfl
    · cases hx : (!c.sendClosed)
      · rw [hx] at hm1; simp at hm1
      · rfl
  exact ⟨by simpa using hm2.1, by simpa using hm2.2⟩

theorem clientOpen_of_memberOk {h : Hub} {r : String} {cid : Nat}
    (hm : memberOk h r cid = true) : clientOpen h cid = true := by
  unfold clientOpen
  cases hc : findClient h cid with
  | none => unfold memberOk at hm; rw [hc] at hm; cases hm
  | some c =>
    have := (memberOk_room hm hc).2
    simp [Option.any, this]

/-- In a pool with distinct identities, every client object is the one its
identity dereferences to. -/
theorem find?_cid_of_mem : ∀ {l : List Client},
    (l.map Client.cid).Nodup → ∀ {c : Client}, c ∈ l →
      l.find? (fun d => d.cid == c.cid) = some c
  | [], _, _, hc => absurd hc (List.not_mem_nil _)
  | d :: rest, hnd, c, hc => by
    rcases List.mem_cons.mp hc with hcd | hc
    · subst hcd
      simp [List.find?_cons]
    · have hnd2 : (rest.map Client.cid).Nodup := by
        rw [List.map_cons, List.nodup_cons] at hnd
        exact hnd.2
      have hd1 : d.cid ∉ rest.map Client.cid := by
        rw [List.map_cons, List.nodup_cons] at hnd
        exact hnd.1
      have hdc : (d.cid == c.cid) = false := by
        apply beq_eq_false_iff_ne.mpr
        intro hcontra
        exact hd1 (hcontra ▸ List.mem_map.mpr ⟨c, hc, rfl⟩)
      rw [List.find?_cons, hdc]
      exact find?_cid_of_mem hnd2 hc

theorem findClient_of_mem {h : Hub} (hnd : (h.clients.map Client.cid).Nodup)
    {c : Client} (hc : c ∈ h.clients) : findClient h c.cid = some c := by
  unfold findClient
  exact find?_cid_of_mem hnd hc

/-- A `lookupRoom` hit names an entry of the table. -/
theorem exists_entry_of_lookupRoom {h : Hub} {r : String} {cur : List Nat}
    (hcur : lookupRoom h r = some cur) : (r, cur) ∈ h.rooms := by
  unfold lookupRoom at hcur
  cases hf : h.rooms.find? (fun p => p.1 == r) with
  | none => rw [hf] at hcur; cases hcur
  | some p =>
    rw [hf] at hcur
    have h2 : p.2 = cur := Option.some_inj.mp hcur
    have h1 : p.1 = r := lookupRoom_key hf
    have := List.mem_of_find?_eq_some hf
    rwa [← h1, ← h2, Prod.mk.eta]

theorem lookupRoom_none_of_no_key {h : Hub} {r : String}
    (habs : (h.rooms.find? (fun p => p.1 == r)).isSome = false) :
    ∀ p ∈ h.rooms, (p.1 == r) = false := by
  intro p hp
  cases hf : h.rooms.find? (fun q => q.1 == r) with
  | some q => rw [hf] at habs; cases habs
  | none =>
    cases hb : (p.1 == r) with
    | false => rfl
    | true => exact absurd hb (List.find?_eq_none.mp hf p hp)

/-- Entries of the table after a `setRoom`. -/
theorem mem_rooms_setRoom {h : Hub} {r : String} {v : List Nat}
    {q : String × List Nat} (hq : q ∈ (setRoom h r v).rooms) :
    q = (r, v) ∨ (q ∈ h.rooms ∧ (q.1 == r) = false) := by
  unfold setRoom at hq
  by_cases hpres : (h.rooms.find? (fun p => p.1 == r)).isSome
  · rw [if_pos hpres] at hq
    obtain ⟨p, hp, hgp⟩ := List.mem_map.mp hq
    by_cases hpr : (p.1 == r) = true
    · left
      rw [← hgp, if_pos hpr]
    · right
      rw [← hgp, if_neg (by simp [hpr])]
      exact ⟨hp, by simpa using hpr⟩
  · rw [if_neg hpres] at hq
    rcases List.mem_append.mp hq with hq | hq
    · right
      exact ⟨hq, lookupRoom_none_of_no_key (bool_eq_false hpres) q hq⟩
    · left
      simpa using hq

theorem keys_setRoom_nodup {h : Hub} (r : String) (v : List Nat)
    (hkeys : (h.rooms.map Prod.fst).Nodup) :
    ((setRoom h r v).rooms.map Prod.fst).Nodup := by
  unfold setRoom
  by_cases hpres : (h.rooms.find? (fun p => p.1 == r)).isSome
  · rw [if_pos hpres]
    rw [show ({ h with rooms := h.rooms.map fun p => if p.1 == r then (r, v) else p } : Hub).rooms
        = h.rooms.map (fun p => if p.1 == r then (r, v) else p) from rfl]
    rw [List.map_map]
    have : (Prod.fst ∘ fun p : String × List Nat => if p.1 == r then (r, v) else p)
        = fun p : String × List Nat => p.1 := by
      funext p
      simp only [Function.comp_apply]
      by_cases hp : (p.1 == r) = true
      · rw [if_pos hp]
        exact (by simpa using hp : p.1 = r).symm
      · rw [if_neg (by simp [hp])]
    rw [this]
    exact hkeys
  · rw [if_neg hpres]
    rw [show ({ h with rooms := h.rooms ++ [(r, v)] } : Hub).rooms
        = h.rooms ++ [(r, v)] from rfl]
    rw [List.map_append]
    refine List.Nodup.append hkeys (by simp) ?_
    intro s hs hs2
    have hsr : s = r := by simpa using hs2
    obtain ⟨p, hp, hps⟩ := List.mem_map.mp hs
    have hfalse := lookupRoom_none_of_no_key (bool_eq_false hpres) p hp
    rw [hps, hsr] at hfalse
    simp at hfalse

theorem memberOk_congr {h1 h2 : Hub} {s : String} {x : Nat}
    (hfc : findClient h1 x = findClient h2 x) :
    memberOk h1 s x = memberOk h2 s x := by
  unfold memberOk
  rw [hfc]

theorem findClient_broadcastResult_not_mem {h : Hub} {r : String}
    {message : ChatMessage} {mem : List Nat} {x : Nat}
    (hx : mem.contains x = false) :
    findClient (broadcastResult h r message mem) x = findClient h x := by
  rw [findClient_broadcastResult]
  cases hc : findClient h x with
  | none => rfl
  | some c =>
    have hx2 : x ∉ mem := by simpa using hx
    simp [findClient_cid hc, hx2]

theorem findClient_broadcastResult_mem {h : Hub} {r : String}
    {message : ChatMessage} {mem : List Nat} {x : Nat} {c : Client}
    (hx : mem.contains x = true) (hc : findClient h x = some c) :
    findClient (broadcastResult h r message mem) x
      = some (deliverOrEvict message (isFull h x) c) := by
  rw [findClient_broadcastResult, hc]
  have hx2 : x ∈ mem := by simpa using hx
  simp [findClient_cid hc, hx2]

theorem closeOk_closeUpd {c : Client} (hcl : closeOk c = true)
    (hopen : c.sendClosed = false) : closeOk (closeUpd c) = true := by
  unfold closeOk at hcl ⊢
  unfold closeUpd
  rw [hopen] at hcl
  simp at hcl ⊢
  omega

theorem closeOk_enqueueMsg {c : Client} (message : ChatMessage)
    (hcl : closeOk c = true) : closeOk (enqueueMsg message c) = true := hcl

theorem closeOk_deliverOrEvict {c : Client} (message : ChatMessage) (full : Bool)
    (hcl : closeOk c = true) (hopen : c.sendClosed = false) :
    closeOk (deliverOrEvict message full c) = true := by
  unfold deliverOrEvict
  by_cases hf : full = true
  · rw [if_pos hf]
    exact closeOk_closeUpd hcl hopen
  · rw [if_neg hf]
    exact closeOk_enqueueMsg message hcl

theorem broadcastResult_keys (h : Hub) (r : String) (message : ChatMessage)
    (mem : List Nat) :
    (broadcastResult h r message mem).rooms.map Prod.fst = h.rooms.map Prod.fst := by
  rw [broadcastResult_rooms, List.map_map]
  apply List.map_congr_left
  intro p _
  simp only [Function.comp_apply]
  by_cases hp : (p.1 == r) = true
  · rw [if_pos hp]
  · rw [if_neg (by simp [hp])]

theorem broadcastResult_cids (h : Hub) (r : String) (message : ChatMessage)
    (mem : List Nat) :
    (broadcastResult h r message mem).clients.map Client.cid
      = h.clients.map Client.cid := by
  rw [broadcastResult_clients, List.map_map]
  apply List.map_congr_left
  intro c _
  simp only [Function.comp_apply]
  by_cases hc : mem.contains c.cid = true
  · rw [if_pos hc]
    simp
  · rw [if_neg hc]

/-- One fan-out pass over targets that are all open members of the room
preserves the invariant. -/
theorem Inv_broadcastResult {h : Hub} {r : String} {cur : List Nat}
    (message : ChatMessage) (mem : List Nat)
    (hInv : Inv h) (hcur : lookupRoom h r = some cur)
    (hsub : ∀ x ∈ mem, x ∈ cur) :
    Inv (broadcastResult h r message mem) := by
  obtain ⟨hkeys, hcids, hrooms, hclose, hpan⟩ := hInv
  have hentry := hrooms (r, cur) (exists_entry_of_lookupRoom hcur)
  have hmemok : ∀ x ∈ mem, memberOk h r x = true :=
    fun x hx => hentry.2 x (hsub x hx)
  refine ⟨?_, ?_, ?_, ?_, ?_⟩
  · rw [broadcastResult_keys]
    exact hkeys
  · rw [broadcastResult_cids]
    exact hcids
  · intro q hq
    rw [broadcastResult_rooms] at hq
    obtain ⟨p, hp, hgp⟩ := List.mem_map.mp hq
    by_cases hpr : (p.1 == r) = true
    · have hp1 : p.1 = r := by simpa using hpr
      have hp2 : p.2 = cur := by
        have hlp := lookupRoom_of_mem hkeys hp
        rw [hp1, hcur] at hlp
        exact (Option.some_inj.mp hlp).symm
      rw [if_pos hpr] at hgp
      constructor
      · rw [← hgp]
        exact (hrooms p hp).1.filter _
      · intro x hx
        rw [← hgp] at hx
        have hx2 := List.mem_filter.mp hx
        have hxcur : x ∈ cur := hp2 ▸ hx2.1
        have hxok : memberOk h r x = true := hentry.2 x hxcur
        obtain ⟨c, hcx, hcopen⟩ : ∃ c, findClient h x = some c ∧ c.sendClosed = false := by
          cases hcx : findClient h x with
          | none => unfold memberOk at hxok; rw [hcx] at hxok; cases hxok
          | some c => exact ⟨c, rfl, (memberOk_room hxok hcx).2⟩
        have hroomx : c.room = r := (memberOk_room hxok hcx).1
        rw [← hgp]
        show memberOk _ p.1 x = true
        by_cases hxm : mem.contains x = true
        · -- delivered (cannot be full, else filtered out)
          have hnotfull : isFull h x = false := by
            have hpred := hx2.2
            rw [hxm] at hpred
            simpa using hpred
          unfold memberOk
          rw [findClient_broadcastResult_mem hxm hcx]
          unfold deliverOrEvict
          rw [hnotfull]
          simp [enqueueMsg, hroomx, hp1, hcopen]
        · unfold memberOk
          rw [findClient_broadcastResult_not_mem (bool_eq_false hxm), hcx]
          simp [hroomx, hp1, hcopen]
    · rw [if_neg (by simp [hpr])] at hgp
      rw [← hgp]
      constructor
      · exact (hrooms p hp).1
      · intro x hx
        have hxok := (hrooms p hp).2 x hx
        have hxnotmem : mem.contains x = false := by
          cases hxm : mem.contains x with
          | false => rfl
          | true =>
            obtain ⟨c, hcx, _⟩ : ∃ c, findClient h x = some c ∧ c.sendClosed = false := by
              cases hcx : findClient h x with
              | none => unfold memberOk at hxok; rw [hcx] at hxok; cases hxok
              | some c => exact ⟨c, rfl, (memberOk_room hxok hcx).2⟩
            have h1 : c.room = p.1 := (memberOk_room hxok hcx).1
            have h2 : c.room = r :=
              (memberOk_room (hmemok x (by simpa using hxm)) hcx).1
            rw [h1] at h2
            have hcontra : (p.1 == r) = true := by rw [h2]; simp
            exact absurd hcontra (by simpa using hpr)
        rw [memberOk_congr (findClient_broadcastResult_not_mem hxnotmem)]
        exact hxok
  · intro d hd
    rw [broadcastResult_clients] at hd
    obtain ⟨e, he, hge⟩ := List.mem_map.mp hd
    by_cases hem : mem.contains e.cid = true
    · have hex : e.cid ∈ mem := by simpa using hem
      have hfe : findClient h e.cid = some e := findClient_of_mem hcids he
      have heopen : e.sendClosed = false := (memberOk_room (hmemok e.cid hex) hfe).2
      rw [← hge, if_pos hem]
      exact closeOk_deliverOrEvict message _ (hclose e he) heopen
    · rw [← hge, if_neg hem]
      exact hclose e he
  · rw [broadcastResult_panicked]
    exact hpan

/-- `broadcastToRoom` preserves the invariant. -/
theorem Inv_broadcastToRoom (h : Hub) (r : String) (message : ChatMessage)
    (hInv : Inv h) : Inv (broadcastToRoom h r message) := by
  cases hcur : lookupRoom h r with
  | none =>
    unfold broadcastToRoom
    rw [hcur]
    exact hInv
  | some cur =>
    have hentry := hInv.2.2.1 (r, cur) (exists_entry_of_lookupRoom hcur)
    rw [broadcastToRoom_eq message hcur hentry.1
      (fun x hx => clientOpen_of_memberOk (hentry.2 x hx)) hInv.1]
    exact Inv_broadcastResult message cur hInv hcur (fun x hx => hx)

/-- `broadcastMessage` (the Broadcast request) preserves the invariant. -/
theorem Inv_broadcastMessage (h : Hub) (message : ChatMessage)
    (hInv : Inv h) : Inv (broadcastMessage h message) :=
  Inv_broadcastToRoom h message.room message hInv

theorem Inv_withNextId {h : Hub} {n : Nat} (hInv : Inv h) :
    Inv { h with nextId := n } := hInv

theorem updateClient_cids (h : Hub) (cid : Nat) (f : Client → Client)
    (hf : ∀ c, (f c).cid = c.cid) :
    (updateClient h cid f).clients.map Client.cid = h.clients.map Client.cid := by
  rw [updateClient_clients, List.map_map]
  apply List.map_congr_left
  intro c _
  simp only [Function.comp_apply]
  by_cases hc : (c.cid == cid) = true
  · rw [if_pos hc, hf]
  · rw [if_neg hc]

/-- Bringing a fresh client object (open channel, zero closes) into the
pool preserves the invariant. -/
theorem Inv_addClient {h : Hub} {c : Client} (hInv : Inv h)
    (hfresh : findClient h c.cid = none)
    (hopen : c.sendClosed = false) (hcount : c.closeCount = 0) :
    Inv (addClient h c) := by
  obtain ⟨hkeys, hcids, hrooms, hclose, hpan⟩ := hInv
  have hnotin : ∀ d ∈ h.clients, d.cid ≠ c.cid := by
    intro d hd hcontra
    have := List.find?_eq_none.mp hfresh d hd
    exact this (by simp [hcontra])
  refine ⟨hkeys, ?_, ?_, ?_, hpan⟩
  · show ((h.clients ++ [c]).map Client.cid).Nodup
    rw [List.map_append]
    refine List.Nodup.append hcids (by simp) ?_
    intro y hy hy2
    have hyc : y = c.cid := by simpa using hy2
    obtain ⟨d, hd, hdy⟩ := List.mem_map.mp hy
    exact hnotin d hd (hdy.trans hyc)
  · intro p hp
    refine ⟨(hrooms p hp).1, ?_⟩
    intro x hx
    have hxok := (hrooms p hp).2 x hx
    obtain ⟨d, hdx, _⟩ : ∃ d, findClient h x = some d ∧ d.sendClosed = false := by
      cases hdx : findClient h x with
      | none => unfold memberOk at hxok; rw [hdx] at hxok; cases hxok
      | some d => exact ⟨d, rfl, (memberOk_room hxok hdx).2⟩
    rw [memberOk_congr (hdx ▸ findClient_addClient_old h c x hdx :
      findClient (addClient h c) x = findClient h x)]
    exact hxok
  · intro d hd
    rcases List.mem_append.mp hd with hd | hd
    · exact hclose d hd
    · have : d = c := by simpa using hd
      subst this
      simp [closeOk, hopen, hcount]

/-- Rewriting one room's member list to a duplicate-free list of ok
members preserves the invariant. -/
theorem Inv_setRoom_sub {h : Hub} {r : String} (hInv : Inv h)
    (newmem : List Nat) (hnd : newmem.Nodup)
    (hok : ∀ x ∈ newmem, memberOk h r x = true) :
    Inv (setRoom h r newmem) := by
  obtain ⟨hkeys, hcids, hrooms, hclose, hpan⟩ := hInv
  refine ⟨keys_setRoom_nodup r newmem hkeys, ?_, ?_, ?_, ?_⟩
  · rw [clients_setRoom]
    exact hcids
  · intro q hq
    rcases mem_rooms_setRoom hq with hq2 | ⟨hq2, _⟩
    · subst hq2
      refine ⟨hnd, ?_⟩
      intro x hx
      rw [memberOk_congr (findClient_setRoom h r newmem x)]
      exact hok x hx
    · refine ⟨(hrooms q hq2).1, ?_⟩
      intro x hx
      rw [memberOk_congr (findClient_setRoom h r newmem x)]
      exact (hrooms q hq2).2 x hx
  · intro d hd
    rw [clients_setRoom] at hd
    exact hclose d hd
  · rw [panicked_setRoom]
    exact hpan

/-- Closing the channel of an open client that is in no room preserves the
invariant. -/
theorem Inv_closeChan {h : Hub} {cid : Nat} {c : Client} (hInv : Inv h)
    (hc : findClient h cid = some c) (hopen : c.sendClosed = false)
    (hnomem : ∀ p ∈ h.rooms, cid ∉ p.2) :
    Inv (closeChan h cid) := by
  obtain ⟨hkeys, hcids, hrooms, hclose, hpan⟩ := hInv
  rw [closeChan_open hc hopen]
  refine ⟨by simpa using hkeys, ?_, ?_, ?_, by simpa using hpan⟩
  · rw [updateClient_cids h cid closeUpd (fun _ => rfl)]
    exact hcids
  · intro q hq
    rw [rooms_updateClient] at hq
    refine ⟨(hrooms q hq).1, ?_⟩
    intro x hx
    have hxne : x ≠ cid := fun hcontra => hnomem q hq (hcontra ▸ hx)
    rw [memberOk_congr (findClient_updateClient_other h cid closeUpd (fun _ => rfl) x hxne)]
    exact (hrooms q hq).2 x hx
  · intro d hd
    rw [updateClient_clients] at hd
    obtain ⟨e, he, hge⟩ := List.mem_map.mp hd
    by_cases hec : (e.cid == cid) = true
    · rw [if_pos hec] at hge
      have hecid : e.cid = cid := by simpa using hec
      have hfe : findClient h e.cid = some e := findClient_of_mem hcids he
      rw [hecid, hc] at hfe
      have hce : c = e := Option.some_inj.mp hfe
      rw [← hge]
      exact closeOk_closeUpd (hclose e he) (hce ▸ hopen)
    · rw [if_neg hec] at hge
      rw [← hge]
      exact hclose e he

/-- Deleting a room entry preserves the invariant. -/
theorem Inv_deleteRoom {h : Hub} (r : String) (hInv : Inv h) :
    Inv (deleteRoom h r) := by
  obtain ⟨hkeys, hcids, hrooms, hclose, hpan⟩ := hInv
  refine ⟨?_, hcids, ?_, hclose, hpan⟩
  · show ((h.rooms.filter _).map Prod.fst).Nodup
    exact hkeys.sublist (List.Sublist.map Prod.fst (List.filter_sublist h.rooms))
  · intro q hq
    have hq2 : q ∈ h.rooms := List.mem_of_mem_filter hq
    exact ⟨(hrooms q hq2).1, fun x hx => (hrooms q hq2).2 x hx⟩

theorem memberOk_some {h : Hub} {r : String} {x : Nat}
    (hok : memberOk h r x = true) :
    ∃ d, findClient h x = some d ∧ d.room = r ∧ d.sendClosed = false := by
  cases hdx : findClient h x with
  | none => unfold memberOk at hok; rw [hdx] at hok; cases hok
  | some d => exact ⟨d, rfl, memberOk_room hok hdx⟩

theorem memberOk_of_membersOf {h : Hub} (hInv : Inv h) {r : String} {x : Nat}
    (hx : x ∈ membersOf h r) : memberOk h r x = true := by
  unfold membersOf at hx
  cases hcur : lookupRoom h r with
  | none => rw [hcur] at hx; cases hx
  | some cur =>
    rw [hcur] at hx
    exact (hInv.2.2.1 (r, cur) (exists_entry_of_lookupRoom hcur)).2 x hx

theorem membersOf_nodup {h : Hub} (hInv : Inv h) (r : String) :
    (membersOf h r).Nodup := by
  unfold membersOf
  cases hcur : lookupRoom h r with
  | none => simp
  | some cur =>
    show cur.Nodup
    exact (hInv.2.2.1 (r, cur) (exists_entry_of_lookupRoom hcur)).1

theorem membersOf_no_fresh {h : Hub} {cid : Nat} (hInv : Inv h)
    (hfresh : findClient h cid = none) (r : String) :
    (membersOf h r).contains cid = false := by
  cases hcc : (membersOf h r).contains cid with
  | false => rfl
  | true =>
    have hx : cid ∈ membersOf h r := by simpa using hcc
    obtain ⟨d, hd, _, _⟩ := memberOk_some (memberOk_of_membersOf hInv hx)
    rw [hfresh] at hd
    cases hd

theorem nodup_append_singleton {l : List Nat} {a : Nat} (hl : l.Nodup)
    (ha : a ∉ l) : (l ++ [a]).Nodup := by
  refine List.Nodup.append hl (by simp) ?_
  intro x hx hx2
  have hxa : x = a := by simpa using hx2
  exact ha (hxa ▸ hx)

theorem memberOk_addClient {h : Hub} {c : Client} {r : String} {x : Nat}
    (hok : memberOk h r x = true) : memberOk (addClient h c) r x = true := by
  obtain ⟨d, hdx, _, _⟩ := memberOk_some hok
  rw [memberOk_congr (hdx ▸ findClient_addClient_old h c x hdx :
    findClient (addClient h c) x = findClient h x)]
  exact hok

/-- `registerClient`, unfolded on a dereferenceable client that is not yet
a member of its room. -/
theorem registerClient_eq {h : Hub} {cid : Nat} {c : Client}
    (hc : findClient h cid = some c)
    (hnot : (membersOf h c.room).contains cid = false) :
    registerClient h cid =
      broadcastToRoom
        { setRoom h c.room (membersOf h c.room ++ [cid]) with nextId := h.nextId + 1 }
        c.room
        (NewChatMessage c.room c.userID c.userName "has joined the room" "join"
          h.nextId h.now) := by
  unfold registerClient
  simp only [hc, hnot, Bool.false_eq_true, if_false, nextId_setRoom, now_setRoom]

/-- The leave message `unregisterClient` synthesizes (hub.go 84-90). -/
def leaveMsg (h : Hub) (c : Client) : ChatMessage :=
  NewChatMessage c.room c.userID c.userName "has left the room" "leave"
    h.nextId h.now

/-- State after the leave broadcast of `unregisterClient` (hub.go 91). -/
def unregisterStage2 (h : Hub) (cid : Nat) (c : Client) : Hub :=
  broadcastToRoomExcept { h with nextId := h.nextId + 1 } c.room (leaveMsg h c) cid

/-- State after `delete(room, client)` (hub.go 93). -/
def unregisterStage3 (h : Hub) (cid : Nat) (c : Client) : Hub :=
  setRoom (unregisterStage2 h cid c) c.room
    ((membersOf (unregisterStage2 h cid c) c.room).filter (fun x => x != cid))

/-- State after `close(client.send)` (hub.go 94). -/
def unregisterStage4 (h : Hub) (cid : Nat) (c : Client) : Hub :=
  closeChan (unregisterStage3 h cid c) cid

/-- The whole present-member branch of `unregisterClient`, including the
empty-room cleanup (hub.go 96-99). -/
def unregisterCore (h : Hub) (cid : Nat) (c : Client) : Hub :=
  if (membersOf (unregisterStage4 h cid c) c.room).isEmpty
  then deleteRoom (unregisterStage4 h cid c) c.room
  else unregisterStage4 h cid c

/-- `unregisterClient`, unfolded on a present member. -/
theorem unregisterClient_eq {h : Hub} {cid : Nat} {c : Client} {mem : List Nat}
    (hc : findClient h cid = some c) (hmem : lookupRoom h c.room = some mem)
    (hin : mem.contains cid = true) :
    unregisterClient h cid = unregisterCore h cid c := by
  unfold unregisterClient unregisterCore unregisterStage4 unregisterStage3
    unregisterStage2 leaveMsg
  simp only [hc, hmem, hin, if_true]

/-- `Register` of a freshly created client preserves the invariant. -/
theorem Inv_register {h : Hub} {cid : Nat} {room uid uname : String}
    (hInv : Inv h) (hfresh : findClient h cid = none) :
    Inv (registerClient (addClient h (NewClient cid room uid uname)) cid) := by
  have hInv0 : Inv (addClient h (NewClient cid room uid uname)) :=
    Inv_addClient hInv hfresh rfl rfl
  have hfc0 : findClient (addClient h (NewClient cid room uid uname)) cid
      = some (NewClient cid room uid uname) :=
    findClient_addClient_new h (NewClient cid room uid uname) hfresh
  have hnot : (membersOf (addClient h (NewClient cid room uid uname))
      (NewClient cid room uid uname).room).contains cid = false := by
    rw [membersOf_addClient]
    exact membersOf_no_fresh hInv hfresh _
  rw [registerClient_eq hfc0 hnot]
  apply Inv_broadcastToRoom
  apply Inv_withNextId
  apply Inv_setRoom_sub hInv0
  · apply nodup_append_singleton (membersOf_nodup hInv0 _)
    have hf := membersOf_no_fresh hInv hfresh (NewClient cid room uid uname).room
    simp only [membersOf_addClient]
    simpa using hf
  · intro x hx
    rcases List.mem_append.mp hx with hx | hx
    · rw [membersOf_addClient] at hx
      exact memberOk_addClient (memberOk_of_membersOf hInv hx)
    · have hxc : x = cid := by simpa using hx
      subst hxc
      unfold memberOk
      rw [hfc0]
      simp [NewClient]

section UnregisterStages

variable {h : Hub} {cid : Nat} {c : Client} {mem : List Nat}

theorem stage2_eq (hInv : Inv h) (hc : findClient h cid = some c)
    (hmem : lookupRoom h c.room = some mem) :
    unregisterStage2 h cid c
      = broadcastResult { h with nextId := h.nextId + 1 } c.room (leaveMsg h c)
          (mem.filter (fun x => x != cid)) := by
  unfold unregisterStage2
  have hentry := hInv.2.2.1 (c.room, mem) (exists_entry_of_lookupRoom hmem)
  exact broadcastToRoomExcept_eq (leaveMsg h c) cid
    (show lookupRoom { h with nextId := h.nextId + 1 } c.room = some mem from hmem)
    hentry.1
    (fun x hx => clientOpen_of_memberOk
      (show memberOk { h with nextId := h.nextId + 1 } c.room x = true from hentry.2 x hx))
    hInv.1

theorem contains_filter_self (mem : List Nat) (cid : Nat) :
    ((mem.filter (fun x => x != cid)).contains cid) = false := by
  cases hc : (mem.filter (fun x => x != cid)).contains cid with
  | false => rfl
  | true =>
    have := List.mem_filter.mp (by simpa using hc : cid ∈ mem.filter (fun x => x != cid))
    simp at this

theorem Inv_stage2 (hInv : Inv h) (hc : findClient h cid = some c)
    (hmem : lookupRoom h c.room = some mem) :
    Inv (unregisterStage2 h cid c) := by
  rw [stage2_eq hInv hc hmem]
  exact Inv_broadcastResult (leaveMsg h c) _ (Inv_withNextId hInv)
    (show lookupRoom { h with nextId := h.nextId + 1 } c.room = some mem from hmem)
    (fun x hx => List.mem_of_mem_filter hx)

theorem findClient_stage2 (hInv : Inv h) (hc : findClient h cid = some c)
    (hmem : lookupRoom h c.room = some mem) :
    findClient (unregisterStage2 h cid c) cid = some c := by
  rw [stage2_eq hInv hc hmem,
    findClient_broadcastResult_not_mem (contains_filter_self mem cid)]
  exact hc

theorem Inv_stage3 (hInv : Inv h) (hc : findClient h cid = some c)
    (hmem : lookupRoom h c.room = some mem) :
    Inv (unregisterStage3 h cid c) := by
  unfold unregisterStage3
  have hInv2 := Inv_stage2 hInv hc hmem
  apply Inv_setRoom_sub hInv2
  · exact (membersOf_nodup hInv2 c.room).filter _
  · intro x hx
    exact memberOk_of_membersOf hInv2 (List.mem_of_mem_filter hx)

theorem findClient_stage3 (hInv : Inv h) (hc : findClient h cid = some c)
    (hmem : lookupRoom h c.room = some mem) :
    findClient (unregisterStage3 h cid c) cid = some c := by
  unfold unregisterStage3
  rw [findClient_setRoom]
  exact findClient_stage2 hInv hc hmem

theorem no_room_holds_cid_stage3 (hInv : Inv h) (hc : findClient h cid = some c)
    (hmem : lookupRoom h c.room = some mem) :
    ∀ p ∈ (unregisterStage3 h cid c).rooms, cid ∉ p.2 := by
  intro p hp hcontra
  have hInv2 := Inv_stage2 hInv hc hmem
  unfold unregisterStage3 at hp
  rcases mem_rooms_setRoom hp with hp2 | ⟨hp2, hpkey⟩
  · subst hp2
    have := List.mem_filter.mp hcontra
    simp at this
  · have hok := (hInv2.2.2.1 p hp2).2 cid hcontra
    obtain ⟨d, hd, hdroom, _⟩ := memberOk_some hok
    rw [findClient_stage2 hInv hc hmem] at hd
    have hdc : d = c := Option.some_inj.mp hd.symm
    rw [hdc] at hdroom
    rw [hdroom] at hpkey
    simp at hpkey

theorem Inv_stage4 (hInv : Inv h) (hc : findClient h cid = some c)
    (hmem : lookupRoom h c.room = some mem) (hin : mem.contains cid = true) :
    Inv (unregisterStage4 h cid c) := by
  unfold unregisterStage4
  have hcopen : c.sendClosed = false := by
    have hentry := hInv.2.2.1 (c.room, mem) (exists_entry_of_lookupRoom hmem)
    exact (memberOk_room (hentry.2 cid (by simpa using hin)) hc).2
  exact Inv_closeChan (Inv_stage3 hInv hc hmem) (findClient_stage3 hInv hc hmem)
    hcopen (no_room_holds_cid_stage3 hInv hc hmem)

end UnregisterStages

/-- `Unregister` preserves the invariant, whether or not the client is
present. -/
theorem Inv_unregister {h : Hub} (cid : Nat) (hInv : Inv h) :
    Inv (unregisterClient h cid) := by
  cases hc : findClient h cid with
  | none =>
    unfold unregisterClient
    simp only [hc]
    exact hInv
  | some c =>
    cases hmem : lookupRoom h c.room with
    | none =>
      unfold unregisterClient
      simp only [hc, hmem]
      exact hInv
    | some mem =>
      by_cases hin : mem.contains cid = true
      · rw [unregisterClient_eq hc hmem hin]
        unfold unregisterCore
        split
        · exact Inv_deleteRoom c.room (Inv_stage4 hInv hc hmem hin)
        · exact Inv_stage4 hInv hc hmem hin
      · unfold unregisterClient
        simp only [hc, hmem, bool_eq_false hin, Bool.false_eq_true, if_false]
        exact hInv

/-- Every hub state reachable through the `Run` loop satisfies the
invariant. -/
theorem Inv_reachable : ∀ {h : Hub}, Reachable h → Inv h := by
  intro h hr
  induction hr with
  | init => exact Inv_NewHub
  | register h cid room uid uname _ hfresh ih => exact Inv_register ih hfresh
  | unregister h cid _ ih => exact Inv_unregister cid ih
  | broadcast h cid mid t content c _ hc ih => exact Inv_broadcastMessage h _ ih

/-! ## Helper facts for the claim theorems -/

theorem findClient_congr {h1 h2 : Hub} (hcl : h1.clients = h2.clients) (x : Nat) :
    findClient h1 x = findClient h2 x := by
  unfold findClient
  rw [hcl]

theorem lookupRoom_congr {h1 h2 : Hub} (hr : h1.rooms = h2.rooms) (r : String) :
    lookupRoom h1 r = lookupRoom h2 r := by
  unfold lookupRoom
  rw [hr]

theorem clients_closeChan (h : Hub) (y : Nat) :
    (closeChan h y).clients = h.clients.map (fun c => if c.cid == y then closeUpd c else c) := by
  unfold closeChan updateClient
  split <;> rfl

theorem rooms_closeChan (h : Hub) (y : Nat) : (closeChan h y).rooms = h.rooms := by
  unfold closeChan updateClient
  split <;> rfl

theorem findClient_closeChan (h : Hub) (y x : Nat) :
    findClient (closeChan h y) x
      = (findClient h x).map (fun c => if c.cid == y then closeUpd c else c) := by
  unfold findClient
  rw [clients_closeChan, List.find?_map]
  have hpred : ((fun c : Client => c.cid == x) ∘ fun c => if c.cid == y then closeUpd c else c)
      = fun c : Client => c.cid == x := by
    funext d
    simp only [Function.comp_apply]
    by_cases hd : (d.cid == y) = true <;> simp [hd]
  rw [hpred]

@[simp] theorem clients_deleteRoom (h : Hub) (r : String) :
    (deleteRoom h r).clients = h.clients := rfl

@[simp] theorem findClient_deleteRoom (h : Hub) (r : String) (x : Nat) :
    findClient (deleteRoom h r) x = findClient h x := rfl

theorem lookupRoom_deleteRoom_self (h : Hub) (r : String) :
    lookupRoom (deleteRoom h r) r = none := by
  unfold lookupRoom deleteRoom
  rw [show ({ h with rooms := h.rooms.filter fun p => p.1 != r } : Hub).rooms
      = h.rooms.filter (fun p => p.1 != r) from rfl]
  have : List.find? (fun p => p.1 == r) (h.rooms.filter (fun p => p.1 != r)) = none := by
    rw [List.find?_eq_none]
    intro p hp
    have := (List.mem_filter.mp hp).2
    simpa using this
  rw [this]
  rfl

/-- The identity fields (`room`, `userID`, `userName`) of every client
object are immutable: no hub operation rewrites them. -/
theorem idFields_sendStep (r : String) (m : ChatMessage) (h : Hub) (y x : Nat) :
    (findClient (sendStep r m h y) x).map (fun c => (c.room, c.userID, c.userName))
      = (findClient h x).map (fun c => (c.room, c.userID, c.userName)) := by
  unfold sendStep
  split
  · rfl
  · split
    · rfl
    · split
      · rw [findClient_updateClient h y (enqueueMsg m) (fun _ => rfl) x]
        cases findClient h x with
        | none => rfl
        | some d =>
          by_cases hd : d.cid = y <;> simp [hd, enqueueMsg]
      · show (findClient (setRoom (closeChan h y) r
            ((membersOf (closeChan h y) r).filter (fun z => z != y))) x).map
            (fun c => (c.room, c.userID, c.userName))
          = (findClient h x).map (fun c => (c.room, c.userID, c.userName))
        rw [findClient_setRoom, findClient_closeChan]
        cases findClient h x with
        | none => rfl
        | some d =>
          by_cases hd : d.cid = y <;> simp [hd, closeUpd]

theorem idFields_foldl (r : String) (m : ChatMessage) :
    ∀ (mem : List Nat) (h : Hub) (x : Nat),
      (findClient (mem.foldl (sendStep r m) h) x).map (fun c => (c.room, c.userID, c.userName))
        = (findClient h x).map (fun c => (c.room, c.userID, c.userName))
  | [], _, _ => rfl
  | y :: rest, h, x => by
    rw [List.foldl_cons, idFields_foldl r m rest (sendStep r m h y) x,
      idFields_sendStep r m h y x]

theorem idFields_broadcastMessage (h : Hub) (m : ChatMessage) (x : Nat) :
    (findClient (broadcastMessage h m) x).map (fun c => (c.room, c.userID, c.userName))
      = (findClient h x).map (fun c => (c.room, c.userID, c.userName)) := by
  unfold broadcastMessage broadcastToRoom
  cases hl : lookupRoom h m.room with
  | none => rfl
  | some mem => exact idFields_foldl m.room m mem h x

/-- Any number of chat messages submitted by an existing client keeps the
state reachable. -/
theorem Reachable_iterate_broadcast (cid : Nat) (room uid uname content : String)
    (mid t : Nat) :
    ∀ (n : Nat) (h : Hub), Reachable h →
      (findClient h cid).map (fun c => (c.room, c.userID, c.userName))
        = some (room, uid, uname) →
      Reachable (Nat.iterate (fun hh => broadcastMessage hh
        (NewChatMessage room uid uname content "message" mid t)) n h)
  | 0, h, hR, _ => hR
  | n + 1, h, hR, hid => by
    rw [Function.iterate_succ_apply]
    apply Reachable_iterate_broadcast cid room uid uname content mid t n
    · obtain ⟨c, hc, hfields⟩ : ∃ c, findClient h cid = some c ∧
          (c.room, c.userID, c.userName) = (room, uid, uname) := by
        cases hc : findClient h cid with
        | none => rw [hc] at hid; cases hid
        | some c =>
          rw [hc] at hid
          exact ⟨c, rfl, Option.some_inj.mp hid⟩
      have heq : NewChatMessage room uid uname content "message" mid t
          = NewChatMessage c.room c.userID c.userName content "message" mid t := by
        have h1 : c.room = room := congrArg Prod.fst hfields
        have h2 : c.userID = uid := congrArg (Prod.fst ∘ Prod.snd) hfields
        have h3 : c.userName = uname := congrArg (Prod.snd ∘ Prod.snd) hfields
        rw [h1, h2, h3]
      show Reachable (broadcastMessage h (NewChatMessage room uid uname content "message" mid t))
      rw [heq]
      exact Reachable.broadcast h cid mid t content c hR hc
    · rw [idFields_broadcastMessage]
      exact hid

/-- A client that is in the pool but not in its room's member set makes
`unregisterClient` a no-op (both guard checks of hub.go 81-82 fail after
the first succeeds only when the member-set check fails). -/
theorem unregister_noop {h : Hub} {cid : Nat} {c : Client}
    (hc : findClient h cid = some c)
    (habs : (membersOf h c.room).contains cid = false) :
    unregisterClient h cid = h := by
  unfold unregisterClient
  simp only [hc]
  cases hmem : lookupRoom h c.room with
  | none => rfl
  | some mem =>
    have hmc : mem.contains cid = false := by
      unfold membersOf at habs
      rw [hmem] at habs
      exact habs
    simp only [hmc, Bool.false_eq_true, if_false]

@[simp] theorem findClient_withNextId (h : Hub) (n : Nat) (x : Nat) :
    findClient { h with nextId := n } x = findClient h x := rfl

@[simp] theorem lookupRoom_withNextId (h : Hub) (n : Nat) (r : String) :
    lookupRoom { h with nextId := n } r = lookupRoom h r := rfl

@[simp] theorem isFull_withNextId (h : Hub) (n : Nat) (x : Nat) :
    isFull { h with nextId := n } x = isFull h x := rfl

@[simp] theorem nextId_addClient (h : Hub) (c : Client) :
    (addClient h c).nextId = h.nextId := rfl

@[simp] theorem now_addClient (h : Hub) (c : Client) :
    (addClient h c).now = h.now := rfl

/-- The join message `registerClient` synthesizes (hub.go 66-72). -/
def joinMsg (h : Hub) (room uid uname : String) : ChatMessage :=
  NewChatMessage room uid uname "has joined the room" "join" h.nextId h.now

/-- State of the hub after `registerClient` has inserted a freshly created
client into its room's member map (hub.go 59-63), before the join
broadcast. -/
def registerMid (h : Hub) (cid : Nat) (room uid uname : String) : Hub :=
  { setRoom (addClient h (NewClient cid room uid uname)) room
      (membersOf h room ++ [cid]) with
    nextId := h.nextId + 1 }

theorem registerClient_eq_fresh {h : Hub} {cid : Nat} {room uid uname : String}
    (hInv : Inv h) (hfresh : findClient h cid = none) :
    registerClient (addClient h (NewClient cid room uid uname)) cid
      = broadcastToRoom (registerMid h cid room uid uname) room
          (joinMsg h room uid uname) := by
  have hfc0 : findClient (addClient h (NewClient cid room uid uname)) cid
      = some (NewClient cid room uid uname) :=
    findClient_addClient_new h (NewClient cid room uid uname) hfresh
  have hnot : (membersOf (addClient h (NewClient cid room uid uname))
      (NewClient cid room uid uname).room).contains cid = false := by
    rw [membersOf_addClient]
    exact membersOf_no_fresh hInv hfresh _
  rw [registerClient_eq hfc0 hnot]
  rfl

theorem Inv_registerMid {h : Hub} {cid : Nat} {room uid uname : String}
    (hInv : Inv h) (hfresh : findClient h cid = none) :
    Inv (registerMid h cid room uid uname) := by
  have hInv0 : Inv (addClient h (NewClient cid room uid uname)) :=
    Inv_addClient hInv hfresh rfl rfl
  apply Inv_withNextId
  apply Inv_setRoom_sub hInv0
  · apply nodup_append_singleton (membersOf_nodup hInv room)
    simpa using membersOf_no_fresh hInv hfresh room
  · intro x hx
    rcases List.mem_append.mp hx with hx | hx
    · exact memberOk_addClient (memberOk_of_membersOf hInv hx)
    · have hxc : x = cid := by simpa using hx
      rw [hxc]
      unfold memberOk
      have hfc0 : findClient (addClient h (NewClient cid room uid uname)) cid
          = some (NewClient cid room uid uname) :=
        findClient_addClient_new h (NewClient cid room uid uname) hfresh
      rw [hfc0]
      simp [NewClient]

theorem lookupRoom_registerMid (h : Hub) (cid : Nat) (room uid uname : String) :
    lookupRoom (registerMid h cid room uid uname) room
      = some (membersOf h room ++ [cid]) := by
  unfold registerMid
  rw [lookupRoom_congr (show ({ setRoom (addClient h (NewClient cid room uid uname)) room
      (membersOf h room ++ [cid]) with nextId := h.nextId + 1 } : Hub).rooms
    = (setRoom (addClient h (NewClient cid room uid uname)) room
      (membersOf h room ++ [cid])).rooms from rfl)]
  exact lookupRoom_setRoom_self _ _ _

theorem findClient_registerMid (h : Hub) (cid : Nat) (room uid uname : String)
    (x : Nat) :
    findClient (registerMid h cid room uid uname) x
      = findClient (addClient h (NewClient cid room uid uname)) x := by
  unfold registerMid
  apply findClient_congr
  rw [show ({ setRoom (addClient h (NewClient cid room uid uname)) room
      (membersOf h room ++ [cid]) with nextId := h.nextId + 1 } : Hub).clients
    = (setRoom (addClient h (NewClient cid room uid uname)) room
      (membersOf h room ++ [cid])).clients from rfl]
  exact clients_setRoom _ _ _

/-- The whole register request, characterized: insertion followed by one
fan-out pass of the join message over the room including the new client. -/
theorem register_result_eq {h : Hub} {cid : Nat} {room uid uname : String}
    (hInv : Inv h) (hfresh : findClient h cid = none) :
    registerClient (addClient h (NewClient cid room uid uname)) cid
      = broadcastResult (registerMid h cid room uid uname) room
          (joinMsg h room uid uname) (membersOf h room ++ [cid]) := by
  rw [registerClient_eq_fresh hInv hfresh]
  have hInvMid := @Inv_registerMid h cid room uid uname hInv hfresh
  have hentry := hInvMid.2.2.1 (room, membersOf h room ++ [cid])
    (exists_entry_of_lookupRoom (lookupRoom_registerMid h cid room uid uname))
  exact broadcastToRoom_eq (joinMsg h room uid uname)
    (lookupRoom_registerMid h cid room uid uname) hentry.1
    (fun x hx => clientOpen_of_memberOk (hentry.2 x hx)) hInvMid.1

theorem findClient_registerMid_new {h : Hub} {cid : Nat} {room uid uname : String}
    (hfresh : findClient h cid = none) :
    findClient (registerMid h cid room uid uname) cid
      = some (NewClient cid room uid uname) := by
  rw [findClient_registerMid]
  exact findClient_addClient_new h (NewClient cid room uid uname) hfresh

theorem isFull_registerMid_new {h : Hub} {cid : Nat} {room uid uname : String}
    (hfresh : findClient h cid = none) :
    isFull (registerMid h cid room uid uname) cid = false := by
  unfold isFull
  rw [findClient_registerMid_new hfresh]
  rfl

/-- The fresh registrant always receives the join message: its mailbox is
empty (far below capacity), so the non-blocking send succeeds. -/
theorem register_delivers_join {h : Hub} {cid : Nat} {room uid uname : String}
    (hInv : Inv h) (hfresh : findClient h cid = none) :
    findClient (registerClient (addClient h (NewClient cid room uid uname)) cid) cid
      = some (enqueueMsg (joinMsg h room uid uname) (NewClient cid room uid uname)) := by
  rw [register_result_eq hInv hfresh]
  rw [findClient_broadcastResult_mem (by simp) (findClient_registerMid_new hfresh)]
  rw [show isFull (registerMid h cid room uid uname) cid = false from
    isFull_registerMid_new hfresh]
  rfl

/-- After registration the new client is a member of its room. -/
theorem register_member {h : Hub} {cid : Nat} {room uid uname : String}
    (hInv : Inv h) (hfresh : findClient h cid = none) :
    lookupRoom (registerClient (addClient h (NewClient cid room uid uname)) cid) room
      = some ((membersOf h room ++ [cid]).filter (fun x =>
          !((membersOf h room ++ [cid]).contains x
            && isFull (registerMid h cid room uid uname) x))) ∧
    cid ∈ membersOf (registerClient (addClient h (NewClient cid room uid uname)) cid) room := by
  have hl : lookupRoom (registerClient (addClient h (NewClient cid room uid uname)) cid) room
      = some ((membersOf h room ++ [cid]).filter (fun x =>
          !((membersOf h room ++ [cid]).contains x
            && isFull (registerMid h cid room uid uname) x))) := by
    rw [register_result_eq hInv hfresh]
    exact lookupRoom_broadcastResult_self _ _ (lookupRoom_registerMid h cid room uid uname)
  refine ⟨hl, ?_⟩
  unfold membersOf
  rw [hl]
  show cid ∈ List.filter _ _
  apply List.mem_filter.mpr
  refine ⟨by simp, ?_⟩
  rw [isFull_registerMid_new hfresh]
  simp

/-- Entries of the room table after one fan-out pass. -/
theorem mem_rooms_broadcastResult {h : Hub} {r : String} {m : ChatMessage}
    {mem : List Nat} {q : String × List Nat}
    (hq : q ∈ (broadcastResult h r m mem).rooms) :
    (∃ p ∈ h.rooms, (p.1 == r) = true ∧
      q = (p.1, p.2.filter (fun x => !(mem.contains x && isFull h x)))) ∨
    (q ∈ h.rooms ∧ (q.1 == r) = false) := by
  rw [broadcastResult_rooms] at hq
  obtain ⟨p, hp, hgp⟩ := List.mem_map.mp hq
  by_cases hpr : (p.1 == r) = true
  · left
    exact ⟨p, hp, hpr, by rw [← hgp, if_pos hpr]⟩
  · right
    rw [← hgp, if_neg hpr]
    exact ⟨hp, by simpa using hpr⟩

/-- Every room entry of the table is non-empty. -/
def roomsNonempty (h : Hub) : Bool := h.rooms.all (fun p => !p.2.isEmpty)

theorem roomsNonempty_iff {h : Hub} :
    roomsNonempty h = true ↔ ∀ p ∈ h.rooms, p.2 ≠ [] := by
  unfold roomsNonempty
  rw [List.all_eq_true]
  constructor
  · intro hh p hp
    have := hh p hp
    simpa using this
  · intro hh p hp
    have := hh p hp
    simpa using this

/-! ## Concrete states used by witnesses and counterexamples -/

/-- Filler chat message used to saturate a mailbox. -/
def wMsgFill : ChatMessage := NewChatMessage "r" "s" "sn" "x" "message" 3 3

/-- A member of room `"r"` with an empty mailbox. -/
def wClientA : Client :=
  { cid := 1, room := "r", userID := "a", userName := "an",
    send := [], sendClosed := false, closeCount := 0 }

/-- A member of room `"r"` whose mailbox is full (256 buffered messages). -/
def wClientC : Client :=
  { cid := 2, room := "r", userID := "c", userName := "cn",
    send := List.replicate sendCapacity wMsgFill, sendClosed := false, closeCount := 0 }

/-- Room `"r"` with one fast member and one slow (full-mailbox) member. -/
def wHub : Hub :=
  { rooms := [("r", [1, 2])], clients := [wClientA, wClientC],
    nextId := 5, now := 5, panicked := false }

/-- A chat message addressed to room `"r"`. -/
def wMsg : ChatMessage := NewChatMessage "r" "a" "an" "hello" "message" 6 6

/-! ## The claims -/

/-- C10: `GetRoomClients` is a total read of the table: it returns the
length of the room's member list when the room is present and `0` when the
room is absent. In this model it is a pure function of the state, so it
cannot mutate the rooms table. -/
theorem C10_get_room_clients (h : Hub) (r : String) :
    GetRoomClients h r = (membersOf h r).length ∧
    (lookupRoom h r = none → GetRoomClients h r = 0) := by
  constructor
  · unfold GetRoomClients membersOf
    cases lookupRoom h r <;> rfl
  · intro hn
    unfold GetRoomClients
    rw [hn]

theorem C10_witness : GetRoomClients wHub "z" = 0 :=
  (C10_get_room_clients wHub "z").2 (by decide)

/-- C8: unregistering a client that is not in its room's member set (for
example one already unregistered, or one evicted by a broadcast) is a
complete no-op — the whole hub state, rooms table, mailboxes and close
flags included, is returned unchanged, so no leave message is broadcast
and no channel is closed. -/
theorem C8_unregister_idempotent (h : Hub) (cid : Nat) (c : Client)
    (hc : findClient h cid = some c)
    (habs : (membersOf h c.room).contains cid = false) :
    unregisterClient h cid = h :=
  unregister_noop hc habs

theorem C8_witness :
    unregisterClient (addClient NewHub (NewClient 3 "r" "u" "n")) 3
      = addClient NewHub (NewClient 3 "r" "u" "n") :=
  C8_unregister_idempotent _ 3 (NewClient 3 "r" "u" "n") (by decide) (by decide)

/-- C3 counterexample: the frame `\x7b"type":"bogus"\x7d` has an
unrecognized `type` and no `content` field, yet `ReadPump` does not treat
it as a parse failure: `json.Unmarshal` succeeds (the `type` field is never
inspected, the missing `content` defaults to the empty string) and a
`"message"`-typed ChatMessage IS submitted to the hub's broadcast channel,
contradicting the claim that no Message is submitted. -/
theorem C3_counterexample :
    processFrame "r" "u" "n" (JsonValue.jobj [("type", JsonValue.jstr "bogus")]) 4 7
      = FrameOutcome.broadcasted (NewChatMessage "r" "u" "n" "" "message" 4 7) := rfl

/-- C3 amended: the reader discards a frame exactly when `json.Unmarshal`
fails (non-object frame, or a `content`/`type` field of the wrong JSON
type); the `type` value is never inspected and a missing `content`
defaults to empty, so every frame that unmarshals — whatever its `type` —
is submitted to the broadcast channel as a `"message"`-typed ChatMessage
carrying the decoded content. In both cases the loop continues: a frame
outcome is always `discarded` or `broadcasted`, never a teardown. -/
theorem C3_amended (room userID userName : String) (frame : JsonValue)
    (mid t : Nat) :
    (processFrame room userID userName frame mid t = FrameOutcome.discarded
      ↔ unmarshalIncoming frame = none) ∧
    (∀ incoming, unmarshalIncoming frame = some incoming →
      processFrame room userID userName frame mid t = FrameOutcome.broadcasted
        (NewChatMessage room userID userName incoming.content "message" mid t)) := by
  constructor
  · unfold processFrame
    cases hf : unmarshalIncoming frame <;> simp
  · intro incoming hinc
    unfold processFrame
    rw [hinc]

theorem C3_witness :
    processFrame "r" "u" "n" (JsonValue.jobj [("content", JsonValue.jstr "hi")]) 0 1
      = FrameOutcome.broadcasted (NewChatMessage "r" "u" "n" "hi" "message" 0 1) :=
  (C3_amended "r" "u" "n" (JsonValue.jobj [("content", JsonValue.jstr "hi")]) 0 1).2
    { content := "hi", msgType := "" } (by decide)

/-- C9: in every reachable hub state, every client's channel has been
closed at most once (so no `close` of an already-closed channel — which
panics in Go — has ever executed, witnessed also by the panic flag staying
clear). The eviction branch of a broadcast removes the client from the
room in the same step that closes the channel, and `unregisterClient`
closes only clients still present in the table, so a channel never sees a
second close. -/
theorem C9_no_double_close (h : Hub) (hR : Reachable h) :
    h.clients.all (fun c => decide (c.closeCount ≤ 1)) = true ∧
    h.panicked = false := by
  have hInv := Inv_reachable hR
  constructor
  · rw [List.all_eq_true]
    intro c hc
    have hok := hInv.2.2.2.1 c hc
    unfold closeOk at hok
    cases hx : decide (c.closeCount ≤ 1) with
    | false => rw [hx] at hok; simp at hok
    | true => rfl
  · exact hInv.2.2.2.2

theorem C9_witness :
    (registerClient (addClient NewHub (NewClient 0 "r" "u" "n")) 0).clients.all
      (fun c => decide (c.closeCount ≤ 1)) = true ∧
    (registerClient (addClient NewHub (NewClient 0 "r" "u" "n")) 0).panicked = false :=
  C9_no_double_close _ (Reachable.register NewHub 0 "r" "u" "n" Reachable.init (by decide))

/-- C2: backpressure policy of Broadcast. For every member of the target
room: if its mailbox is full, its record after the broadcast is exactly
`closeUpd` of the old one — channel closed, mailbox buffer untouched (no
waiting, no retry, the message is simply not delivered to it) — and it is
no longer in the room's member list; if its mailbox has free capacity, its
record is exactly the old one with the message appended, and it is still a
member. One slow consumer therefore never prevents delivery to the rest. -/
theorem C2_backpressure (h : Hub) (message : ChatMessage) (mem : List Nat)
    (hInv : Inv h) (hmem : lookupRoom h message.room = some mem) :
    ∀ cid ∈ mem, ∀ c, findClient h cid = some c →
      (isFull h cid = true →
        findClient (broadcastMessage h message) cid = some (closeUpd c) ∧
        cid ∉ membersOf (broadcastMessage h message) message.room) ∧
      (isFull h cid = false →
        findClient (broadcastMessage h message) cid = some (enqueueMsg message c) ∧
        cid ∈ membersOf (broadcastMessage h message) message.room) := by
  intro cid hcid c hc
  have hentry := hInv.2.2.1 (message.room, mem) (exists_entry_of_lookupRoom hmem)
  have hbe : broadcastMessage h message = broadcastResult h message.room message mem := by
    unfold broadcastMessage
    exact broadcastToRoom_eq message hmem hentry.1
      (fun x hx => clientOpen_of_memberOk (hentry.2 x hx)) hInv.1
  have hcont : mem.contains cid = true := by simpa using hcid
  have hsurv : lookupRoom (broadcastResult h message.room message mem) message.room
      = some (mem.filter (fun x => !(mem.contains x && isFull h x))) :=
    lookupRoom_broadcastResult_self message mem hmem
  constructor
  · intro hfull
    constructor
    · rw [hbe, findClient_broadcastResult_mem hcont hc]
      unfold deliverOrEvict
      rw [hfull]
      simp
    · rw [hbe]
      unfold membersOf
      rw [hsurv]
      intro hmem2
      have hpred := (List.mem_filter.mp hmem2).2
      rw [hcont, hfull] at hpred
      simp at hpred
  · intro hnotfull
    constructor
    · rw [hbe, findClient_broadcastResult_mem hcont hc]
      unfold deliverOrEvict
      rw [hnotfull]
      simp
    · rw [hbe]
      unfold membersOf
      rw [hsurv]
      show cid ∈ List.filter _ _
      apply List.mem_filter.mpr
      refine ⟨hcid, ?_⟩
      rw [hcont, hnotfull]
      rfl

theorem C2_witness :
    (findClient (broadcastMessage wHub wMsg) 2 = some (closeUpd wClientC) ∧
      2 ∉ membersOf (broadcastMessage wHub wMsg) wMsg.room) ∧
    (findClient (broadcastMessage wHub wMsg) 1 = some (enqueueMsg wMsg wClientA) ∧
      1 ∈ membersOf (broadcastMessage wHub wMsg) wMsg.room) := by
  have hC := C2_backpressure wHub wMsg [1, 2] (by decide) (by decide) 2 (by decide)
    wClientC (by decide)
  have hA := C2_backpressure wHub wMsg [1, 2] (by decide) (by decide) 1 (by decide)
    wClientA (by decide)
  exact ⟨hC.1 (by decide), hA.2 (by decide)⟩

/-- C5: Register postcondition. Registering a freshly created actor adds it
to `rooms[actor.roomId]` (the lookup after registration finds it as a
member, whether or not the room existed before), synthesizes a join
Message whose sender identity is the actor's (`userID`, `userDisplayName`,
room), and broadcasts it through the standard room fan-out: the new actor
itself receives it (its fresh mailbox is empty, far below capacity), and
so does every prior member with free mailbox capacity. Register is a total
function of the state: it never fails. -/
theorem C5_register_postcondition (h : Hub) (cid : Nat) (room uid uname : String)
    (hInv : Inv h) (hfresh : findClient h cid = none) :
    cid ∈ membersOf (registerClient (addClient h (NewClient cid room uid uname)) cid) room ∧
    findClient (registerClient (addClient h (NewClient cid room uid uname)) cid) cid
      = some (enqueueMsg (joinMsg h room uid uname) (NewClient cid room uid uname)) ∧
    (∀ x ∈ membersOf h room, isFull h x = false →
      ∀ d, findClient h x = some d →
        findClient (registerClient (addClient h (NewClient cid room uid uname)) cid) x
          = some (enqueueMsg (joinMsg h room uid uname) d)) ∧
    (joinMsg h room uid uname).msgType = "join" ∧
    (joinMsg h room uid uname).userID = uid ∧
    (joinMsg h room uid uname).userDisplayName = uname ∧
    (joinMsg h room uid uname).room = room := by
  refine ⟨(register_member hInv hfresh).2, register_delivers_join hInv hfresh,
    ?_, rfl, rfl, rfl, rfl⟩
  intro x hx hxfull d hd
  have hxne : x ≠ cid := by
    intro hcontra
    obtain ⟨e, he, _, _⟩ := memberOk_some (memberOk_of_membersOf hInv hx)
    rw [hcontra, hfresh] at he
    cases he
  have hdmid : findClient (registerMid h cid room uid uname) x = some d := by
    rw [findClient_registerMid]
    exact findClient_addClient_old h (NewClient cid room uid uname) x hd
  have hfmid : isFull (registerMid h cid room uid uname) x = false := by
    unfold isFull at hxfull ⊢
    rw [hdmid]
    rw [hd] at hxfull
    exact hxfull
  rw [register_result_eq hInv hfresh,
    findClient_broadcastResult_mem (by simp [hx] : (membersOf h room ++ [cid]).contains x = true) hdmid]
  unfold deliverOrEvict
  rw [hfmid]
  simp

theorem C5_witness :
    9 ∈ membersOf (registerClient (addClient wHub (NewClient 9 "r" "u9" "n9")) 9) "r" ∧
    findClient (registerClient (addClient wHub (NewClient 9 "r" "u9" "n9")) 9) 9
      = some (enqueueMsg (joinMsg wHub "r" "u9" "n9") (NewClient 9 "r" "u9" "n9")) ∧
    findClient (registerClient (addClient wHub (NewClient 9 "r" "u9" "n9")) 9) 1
      = some (enqueueMsg (joinMsg wHub "r" "u9" "n9") wClientA) := by
  have hthm := C5_register_postcondition wHub 9 "r" "u9" "n9" (by decide) (by decide)
  exact ⟨hthm.1, hthm.2.1, hthm.2.2.1 1 (by decide) (by decide) wClientA (by decide)⟩

section UnregisterMore

variable {h : Hub} {cid : Nat} {c : Client} {mem : List Nat}

theorem lookupRoom_stage3_self :
    lookupRoom (unregisterStage3 h cid c) c.room
      = some ((membersOf (unregisterStage2 h cid c) c.room).filter
          (fun x => x != cid)) := by
  unfold unregisterStage3
  exact lookupRoom_setRoom_self _ _ _

theorem lookupRoom_stage4_self :
    lookupRoom (unregisterStage4 h cid c) c.room
      = some ((membersOf (unregisterStage2 h cid c) c.room).filter
          (fun x => x != cid)) := by
  rw [lookupRoom_congr (show (unregisterStage4 h cid c).rooms
    = (unregisterStage3 h cid c).rooms from rooms_closeChan _ _)]
  exact lookupRoom_stage3_self

theorem findClient_stage4_self (hInv : Inv h) (hc : findClient h cid = some c)
    (hmem : lookupRoom h c.room = some mem) (hcopen : c.sendClosed = false) :
    findClient (unregisterStage4 h cid c) cid = some (closeUpd c) := by
  unfold unregisterStage4
  rw [closeChan_open (findClient_stage3 hInv hc hmem) hcopen,
    findClient_updateClient _ cid closeUpd (fun _ => rfl) cid,
    findClient_stage3 hInv hc hmem]
  simp [findClient_cid hc]

theorem findClient_stage4_other {x : Nat} (hx : x ≠ cid) :
    findClient (unregisterStage4 h cid c) x
      = findClient (unregisterStage2 h cid c) x := by
  unfold unregisterStage4
  rw [findClient_closeChan]
  unfold unregisterStage3
  rw [findClient_setRoom]
  cases hd : findClient (unregisterStage2 h cid c) x with
  | none => rfl
  | some d => simp [findClient_cid hd, hx]

theorem stage2_delivers (hInv : Inv h) (hc : findClient h cid = some c)
    (hmem : lookupRoom h c.room = some mem) {x : Nat}
    (hxm : x ∈ mem) (hxne : x ≠ cid) (hxfull : isFull h x = false)
    {d : Client} (hd : findClient h x = some d) :
    findClient (unregisterStage2 h cid c) x
      = some (enqueueMsg (leaveMsg h c) d) := by
  rw [stage2_eq hInv hc hmem]
  have hcont : (mem.filter (fun y => y != cid)).contains x = true := by
    have : x ∈ mem.filter (fun y => y != cid) :=
      List.mem_filter.mpr ⟨hxm, by simpa using hxne⟩
    simpa using this
  rw [findClient_broadcastResult_mem hcont
    (show findClient { h with nextId := h.nextId + 1 } x = some d from hd)]
  unfold deliverOrEvict
  rw [show isFull { h with nextId := h.nextId + 1 } x = false from hxfull]
  rfl

end UnregisterMore

/-- C6: Unregister postcondition for a present actor. The leave Message —
type `"leave"`, sender the leaving actor's identity — is broadcast to
every other member of the room with free mailbox capacity; the leaving
actor is excluded: its own mailbox buffer is untouched (its final record
is exactly `closeUpd` of the old one, so it receives nothing and its
channel is closed); the actor is removed from the member set; and the room
entry is deleted exactly when no members remain. -/
theorem C6_unregister_postcondition (h : Hub) (cid : Nat) (c : Client)
    (mem : List Nat) (hInv : Inv h) (hc : findClient h cid = some c)
    (hmem : lookupRoom h c.room = some mem) (hin : mem.contains cid = true) :
    findClient (unregisterClient h cid) cid = some (closeUpd c) ∧
    cid ∉ membersOf (unregisterClient h cid) c.room ∧
    (lookupRoom (unregisterClient h cid) c.room = none ↔
      membersOf (unregisterClient h cid) c.room = []) ∧
    (∀ x ∈ mem, x ≠ cid → isFull h x = false →
      ∀ d, findClient h x = some d →
        findClient (unregisterClient h cid) x
          = some (enqueueMsg (leaveMsg h c) d)) ∧
    (leaveMsg h c).msgType = "leave" ∧ (leaveMsg h c).userID = c.userID ∧
    (leaveMsg h c).userDisplayName = c.userName ∧
    (leaveMsg h c).content = "has left the room" := by
  have hcopen : c.sendClosed = false := by
    have hentry := hInv.2.2.1 (c.room, mem) (exists_entry_of_lookupRoom hmem)
    exact (memberOk_room (hentry.2 cid (by simpa using hin)) hc).2
  rw [unregisterClient_eq hc hmem hin]
  unfold unregisterCore
  by_cases hempty : (membersOf (unregisterStage4 h cid c) c.room).isEmpty = true
  · rw [if_pos hempty]
    refine ⟨?_, ?_, ?_, ?_, rfl, rfl, rfl, rfl⟩
    · rw [findClient_deleteRoom]
      exact findClient_stage4_self hInv hc hmem hcopen
    · unfold membersOf
      rw [lookupRoom_deleteRoom_self]
      simp
    · constructor
      · intro _
        unfold membersOf
        rw [lookupRoom_deleteRoom_self]
        rfl
      · intro _
        exact lookupRoom_deleteRoom_self _ _
    · intro x hxm hxne hxfull d hd
      rw [findClient_deleteRoom, findClient_stage4_other hxne]
      exact stage2_delivers hInv hc hmem hxm hxne hxfull hd
  · rw [if_neg hempty]
    refine ⟨findClient_stage4_self hInv hc hmem hcopen, ?_, ?_, ?_, rfl, rfl, rfl, rfl⟩
    · unfold membersOf
      rw [lookupRoom_stage4_self]
      intro hcontra
      have hpred := (List.mem_filter.mp hcontra).2
      simp at hpred
    · rw [lookupRoom_stage4_self]
      constructor
      · intro hx
        cases hx
      · intro hx
        exfalso
        apply hempty
        unfold membersOf at hx ⊢
        rw [lookupRoom_stage4_self] at hx ⊢
        show (((membersOf (unregisterStage2 h cid c) c.room).filter
          (fun x => x != cid)).isEmpty) = true
        have hx2 : (membersOf (unregisterStage2 h cid c) c.room).filter
            (fun x => x != cid) = [] := hx
        rw [hx2]
        rfl
    · intro x hxm hxne hxfull d hd
      rw [findClient_stage4_other hxne]
      exact stage2_delivers hInv hc hmem hxm hxne hxfull hd

/-- Second member of the C6 witness room. -/
def w6A : Client :=
  { cid := 1, room := "r", userID := "a", userName := "an",
    send := [], sendClosed := false, closeCount := 0 }

def w6B : Client :=
  { cid := 2, room := "r", userID := "b", userName := "bn",
    send := [], sendClosed := false, closeCount := 0 }

def w6Hub : Hub :=
  { rooms := [("r", [1, 2])], clients := [w6A, w6B],
    nextId := 0, now := 0, panicked := false }

theorem C6_witness :
    findClient (unregisterClient w6Hub 1) 1 = some (closeUpd w6A) ∧
    1 ∉ membersOf (unregisterClient w6Hub 1) "r" ∧
    (lookupRoom (unregisterClient w6Hub 1) "r" = none ↔
      membersOf (unregisterClient w6Hub 1) "r" = []) ∧
    findClient (unregisterClient w6Hub 1) 2
      = some (enqueueMsg (leaveMsg w6Hub w6A) w6B) := by
  have hthm := C6_unregister_postcondition w6Hub 1 w6A [1, 2] (by decide) (by decide)
    (by decide) (by decide)
  exact ⟨hthm.1, hthm.2.1, hthm.2.2.1,
    hthm.2.2.2.1 2 (by decide) (by decide) (by decide) w6B (by decide)⟩

/-- A one-client hub used to exhibit the content of the synthesized join
message. -/
def c7hub : Hub := registerClient (addClient NewHub (NewClient 0 "r" "u" "n")) 0

/-- C7 counterexample: after registering one client into a fresh room, the
single message the Hub broadcast into its mailbox is the synthesized join
message, and its content is the fixed string `"has joined the room"` — not
empty, contradicting the claim that the content field of every synthesized
join or leave Message is empty. -/
theorem C7_counterexample :
    (findClient c7hub 0).map (fun c => c.send.map (fun m => (m.msgType, m.content)))
      = some [("join", "has joined the room")] ∧
    ("has joined the room" : String) ≠ "" := by
  constructor
  · decide
  · decide

/-- C7 amended: the synthesized join and leave Messages carry fixed
non-empty contents — `"has joined the room"` for a join (delivered as such
to the registering client) and `"has left the room"` for a leave (the
message `unregisterClient` broadcasts to the rest of the room). -/
theorem C7_amended (h : Hub) (cid : Nat) (room uid uname : String)
    (hInv : Inv h) (hfresh : findClient h cid = none)
    (hu : Hub) (ucid : Nat) (uc : Client) (umem : List Nat)
    (huInv : Inv hu) (huc : findClient hu ucid = some uc)
    (humem : lookupRoom hu uc.room = some umem)
    (huin : umem.contains ucid = true) :
    (joinMsg h room uid uname).content = "has joined the room" ∧
    findClient (registerClient (addClient h (NewClient cid room uid uname)) cid) cid
      = some (enqueueMsg (joinMsg h room uid uname) (NewClient cid room uid uname)) ∧
    (leaveMsg hu uc).content = "has left the room" ∧
    unregisterClient hu ucid = unregisterCore hu ucid uc :=
  ⟨rfl, register_delivers_join hInv hfresh, rfl, unregisterClient_eq huc humem huin⟩

theorem C7_witness :
    (joinMsg wHub "r" "u7" "n7").content = "has joined the room" ∧
    findClient (registerClient (addClient wHub (NewClient 7 "r" "u7" "n7")) 7) 7
      = some (enqueueMsg (joinMsg wHub "r" "u7" "n7") (NewClient 7 "r" "u7" "n7")) ∧
    (leaveMsg w6Hub w6A).content = "has left the room" ∧
    unregisterClient w6Hub 1 = unregisterCore w6Hub 1 w6A :=
  C7_amended wHub 7 "r" "u7" "n7" (by decide) (by decide)
    w6Hub 1 w6A [1, 2] (by decide) (by decide) (by decide) (by decide)

/-- C4 amended: eviction is silent, not surfaced as a leave event. When a
broadcast evicts a full-mailbox member, the member is closed and removed
from the room on the spot; the eventual `Unregister` request from the
dying connection is then a complete no-op (the client is no longer in the
table), so no leave Message naming the evicted actor is ever broadcast.
The remaining members with free capacity receive exactly the broadcast
message itself — no leave event and no error payload — and the evicted
actor's own mailbox buffer is left untouched (it receives nothing). -/
theorem C4_amended (h : Hub) (message : ChatMessage) (mem : List Nat) (cid : Nat)
    (c : Client) (hInv : Inv h) (hmem : lookupRoom h message.room = some mem)
    (hcid : cid ∈ mem) (hc : findClient h cid = some c)
    (hfull : isFull h cid = true) :
    unregisterClient (broadcastMessage h message) cid = broadcastMessage h message ∧
    (∀ x ∈ mem, x ≠ cid → isFull h x = false → ∀ d, findClient h x = some d →
      findClient (broadcastMessage h message) x = some (enqueueMsg message d)) := by
  have hentry := hInv.2.2.1 (message.room, mem) (exists_entry_of_lookupRoom hmem)
  have hbe : broadcastMessage h message = broadcastResult h message.room message mem := by
    unfold broadcastMessage
    exact broadcastToRoom_eq message hmem hentry.1
      (fun x hx => clientOpen_of_memberOk (hentry.2 x hx)) hInv.1
  have hcont : mem.contains cid = true := by simpa using hcid
  have hroomc : c.room = message.room := (memberOk_room (hentry.2 cid hcid) hc).1
  constructor
  · have hfc2 : findClient (broadcastMessage h message) cid = some (closeUpd c) := by
      rw [hbe, findClient_broadcastResult_mem hcont hc]
      unfold deliverOrEvict
      rw [hfull]
      simp
    apply unregister_noop hfc2
    show (membersOf (broadcastMessage h message) (closeUpd c).room).contains cid = false
    have hr2 : (closeUpd c).room = message.room := hroomc
    rw [hr2, hbe]
    unfold membersOf
    rw [lookupRoom_broadcastResult_self message mem hmem]
    apply contains_false_of_not_mem
    intro hcontra
    have hpred := (List.mem_filter.mp hcontra).2
    rw [hcont, hfull] at hpred
    simp at hpred
  · intro x hxm hxne hxfull d hd
    rw [hbe, findClient_broadcastResult_mem (by simpa using hxm) hd]
    unfold deliverOrEvict
    rw [hxfull]
    simp

theorem C4_witness :
    unregisterClient (broadcastMessage wHub wMsg) 2 = broadcastMessage wHub wMsg ∧
    findClient (broadcastMessage wHub wMsg) 1 = some (enqueueMsg wMsg wClientA) := by
  have hthm := C4_amended wHub wMsg [1, 2] 2 wClientC (by decide) (by decide)
    (by decide) (by decide) (by decide)
  exact ⟨hthm.1, hthm.2 1 (by decide) (by decide) (by decide) wClientA (by decide)⟩

/-- Trace for the C4 counterexample: user c joins room "r", then user a
joins; a's 254 chat messages fill c's 256-slot mailbox (two join messages
are already buffered); the 255th broadcast evicts c; c's reader then
unregisters. -/
def evC : Hub := registerClient (addClient NewHub (NewClient 0 "r" "c" "cn")) 0

def evCA : Hub := registerClient (addClient evC (NewClient 1 "r" "a" "an")) 1

def evStep (h : Hub) : Hub :=
  broadcastMessage h (NewChatMessage "r" "a" "an" "x" "message" 5 7)

def evFinal : Hub := unregisterClient (Nat.iterate evStep 255 evCA) 0

/-- C4 counterexample: in the reachable state `evFinal`, client 0 was
evicted for backpressure (channel closed exactly once, removed from room
"r" whose only member is now client 1) and its subsequent Unregister has
already been processed — yet client 1's mailbox contains no `"leave"`
message at all: the claimed leave event naming the evicted actor was
never delivered to the remaining member. -/
theorem C4_counterexample :
    Reachable evFinal ∧
    ((findClient evFinal 0).map (fun c => (c.sendClosed, c.closeCount))
        = some (true, 1) ∧
      membersOf evFinal "r" = [1] ∧
      (findClient evFinal 1).map
        (fun c => (c.send.filter (fun m => m.msgType == "leave")).length)
        = some 0) := by
  refine ⟨?_, by decide⟩
  unfold evFinal
  apply Reachable.unregister
  have hstep : evStep = fun hh => broadcastMessage hh
      (NewChatMessage "r" "a" "an" "x" "message" 5 7) := rfl
  rw [hstep]
  exact Reachable_iterate_broadcast 1 "r" "a" "an" "x" 5 7 255 evCA
    (Reachable.register evC 1 "r" "a" "an"
      (Reachable.register NewHub 0 "r" "c" "cn" Reachable.init (by decide))
      (by decide))
    (by decide)

/-- Trace for the C1 counterexample: one client joins room "r" and then
submits 256 chat messages; the join plus the first 255 fill its mailbox,
and the 256th broadcast evicts it, emptying the room. -/
def evSolo : Hub := registerClient (addClient NewHub (NewClient 0 "r" "u" "n")) 0

def evSoloStep (h : Hub) : Hub :=
  broadcastMessage h (NewChatMessage "r" "u" "n" "x" "message" 5 7)

/-- C1 counterexample: a reachable state in which room "r" is present in
the table with an empty member set. The eviction path of
`broadcastToRoom` deletes the client from the room's member map but never
deletes the emptied room entry, so the claimed invariant — a room
identifier is in the table iff it has at least one member, with every
membership-dropping operation deleting the entry — fails on the
broadcast-eviction path. -/
theorem C1_counterexample :
    Reachable (Nat.iterate evSoloStep 256 evSolo) ∧
    lookupRoom (Nat.iterate evSoloStep 256 evSolo) "r" = some [] := by
  constructor
  · have hstep : evSoloStep = fun hh => broadcastMessage hh
        (NewChatMessage "r" "u" "n" "x" "message" 5 7) := rfl
    rw [hstep]
    exact Reachable_iterate_broadcast 0 "r" "u" "n" "x" 5 7 256 evSolo
      (Reachable.register NewHub 0 "r" "u" "n" Reachable.init (by decide))
      (by decide)
  · decide

/-- C1 amended: `registerClient` and `unregisterClient` do preserve the
invariant that every room entry in the table is non-empty (unregister
deletes the entry the moment the last member is removed, and the join
broadcast always keeps at least the fresh registrant in the room), but the
eviction path inside a plain Broadcast does not delete a room it empties —
see the counterexample — so the invariant as claimed does not hold for
Broadcast. -/
theorem C1_amended (h : Hub) (cid ucid : Nat) (room uid uname : String)
    (hInv : Inv h) (hNE : roomsNonempty h = true)
    (hfresh : findClient h cid = none) :
    roomsNonempty (registerClient (addClient h (NewClient cid room uid uname)) cid)
      = true ∧
    roomsNonempty (unregisterClient h ucid) = true := by
  have hNE2 := roomsNonempty_iff.mp hNE
  constructor
  · rw [roomsNonempty_iff]
    intro q hq
    rw [register_result_eq hInv hfresh] at hq
    rcases mem_rooms_broadcastResult hq with ⟨p, hp, hpr, hqeq⟩ | ⟨hq2, hkey⟩
    · have hp1 : p.1 = room := by simpa using hpr
      have hInvMid := @Inv_registerMid h cid room uid uname hInv hfresh
      have hp2 : p.2 = membersOf h room ++ [cid] := by
        have hlp := lookupRoom_of_mem hInvMid.1 hp
        rw [hp1, lookupRoom_registerMid] at hlp
        exact (Option.some_inj.mp hlp).symm
      have hsurv : cid ∈ p.2.filter (fun x =>
          !((membersOf h room ++ [cid]).contains x
            && isFull (registerMid h cid room uid uname) x)) := by
        rw [hp2]
        apply List.mem_filter.mpr
        refine ⟨by simp, ?_⟩
        rw [isFull_registerMid_new hfresh]
        simp
      rw [hqeq]
      show p.2.filter _ ≠ []
      intro hcontra
      rw [hcontra] at hsurv
      exact absurd hsurv (List.not_mem_nil _)
    · rcases mem_rooms_setRoom (show q ∈ (setRoom
          (addClient h (NewClient cid room uid uname)) room
          (membersOf h room ++ [cid])).rooms from hq2) with hq3 | ⟨hq3, _⟩
      · rw [hq3] at hkey
        simp at hkey
      · exact hNE2 q hq3
  · cases hc : findClient h ucid with
    | none =>
      have hnoop : unregisterClient h ucid = h := by
        unfold unregisterClient
        simp only [hc]
      rw [hnoop]
      exact hNE
    | some uc =>
      cases hmem : lookupRoom h uc.room with
      | none =>
        have hnoop : unregisterClient h ucid = h := by
          unfold unregisterClient
          simp only [hc, hmem]
        rw [hnoop]
        exact hNE
      | some umem =>
        by_cases hin : umem.contains ucid = true
        · rw [unregisterClient_eq hc hmem hin]
          have hmain : ∀ q ∈ (unregisterStage4 h ucid uc).rooms,
              (q.1 == uc.room) = false → q ∈ h.rooms := by
            intro q hq hkey
            unfold unregisterStage4 at hq
            rw [rooms_closeChan] at hq
            rcases mem_rooms_setRoom (show q ∈ (setRoom (unregisterStage2 h ucid uc)
                uc.room ((membersOf (unregisterStage2 h ucid uc) uc.room).filter
                  (fun x => x != ucid))).rooms from hq) with hq2 | ⟨hq2, _⟩
            · rw [hq2] at hkey
              simp at hkey
            · rw [stage2_eq hInv hc hmem] at hq2
              rcases mem_rooms_broadcastResult hq2 with ⟨p, hp, hpr, hqeq⟩ | ⟨hq3, _⟩
              · have hkey2 : (p.1 == uc.room) = false := by
                  rw [hqeq] at hkey
                  exact hkey
                rw [hpr] at hkey2
                simp at hkey2
              · exact hq3
          unfold unregisterCore
          split
          · rw [roomsNonempty_iff]
            intro q hq
            have hq2 : q ∈ (unregisterStage4 h ucid uc).rooms ∧ (q.1 != uc.room) = true :=
              ⟨(List.mem_filter.mp hq).1, (List.mem_filter.mp hq).2⟩
            have hkey : (q.1 == uc.room) = false := by simpa using hq2.2
            exact hNE2 q (hmain q hq2.1 hkey)
          · next hempty =>
            rw [roomsNonempty_iff]
            intro q hq
            by_cases hkey : (q.1 == uc.room) = true
            · have hInv4 := Inv_stage4 hInv hc hmem hin
              have hq1 : q.1 = uc.room := by simpa using hkey
              have hlp := lookupRoom_of_mem hInv4.1 hq
              rw [hq1, lookupRoom_stage4_self] at hlp
              have hq2 : q.2 = (membersOf (unregisterStage2 h ucid uc) uc.room).filter
                  (fun x => x != ucid) := (Option.some_inj.mp hlp).symm
              intro hq0
              apply hempty
              unfold membersOf
              rw [lookupRoom_stage4_self]
              show ((membersOf (unregisterStage2 h ucid uc) uc.room).filter
                (fun x => x != ucid)).isEmpty = true
              rw [← hq2, hq0]
              rfl
            · exact hNE2 q (hmain q hq (bool_eq_false hkey))
        · have hnoop : unregisterClient h ucid = h := by
            unfold unregisterClient
            simp only [hc, hmem, bool_eq_false hin, Bool.false_eq_true, if_false]
          rw [hnoop]
          exact hNE

theorem C1_witness :
    roomsNonempty (registerClient (addClient wHub (NewClient 7 "q" "u" "n")) 7)
      = true ∧
    roomsNonempty (unregisterClient wHub 1) = true :=
  C1_amended wHub 7 1 "q" "u" "n" (by decide) (by decide) (by decide)

end DevJournal
